import Mathlib

/-!
utrack, raw packet socket (`src/socket_pcap.cpp`).

A shallow embedding of the frame encoder `packet_buffer::append`, the hand-off
`packet_socket::send`, the transmitter `packet_socket::send_thread`, the capture
callback `packet_handler` and `packet_socket::receive`, followed by the
properties established about them.

Modelling conventions

* A byte is a `Fin 256`. Memory reached through a raw pointer or through
  `std::vector::data()` is a total function from offsets to bytes; a
  `std::vector<std::uint8_t>` is that memory together with its `size()`.
* A 16- or 32-bit object that the code only moves with `memcpy` (`sin_port`,
  `s_addr`, `m_from_ipv4`) is kept as its memory image, so nothing depends on the
  byte order of the host. The one host-order value that is written to memory, the
  `DLT_NULL` protocol family, is laid out for a little-endian host.
* C `int` values that are sizes or cursors are natural numbers and are not wrapped:
  payloads and buffers are taken to be smaller than 2^31 bytes. The `int`s of the
  capture callback are integers, and the one place where the source mixes
  `bpf_u_int32` and `int` wraps explicitly.
* `fprintf` logging and `assert` are not part of the state.
-/

namespace Utrack

/-! ## Bytes and memory -/

/-- An octet, `std::uint8_t`. -/
abbrev Byte := Fin 256

/-- Conversion of a non-negative C integer to `std::uint8_t`. -/
def u8 (x : Nat) : Byte := ⟨x % 256, Nat.mod_lt _ (by decide)⟩

/-- Conversion of a C `int` to `std::uint8_t`. -/
def u8i (x : Int) : Byte := ⟨(x % 256).toNat, by omega⟩

/-- Memory image of a 16-bit object, lowest address first. -/
structure u16_mem where
  b0 : Byte
  b1 : Byte
  deriving DecidableEq

/-- Memory image of a 32-bit object, lowest address first. -/
structure u32_mem where
  b0 : Byte
  b1 : Byte
  b2 : Byte
  b3 : Byte
  deriving DecidableEq

/-- The bytes of a 16-bit object in address order. -/
def u16_mem.bytes (x : u16_mem) : List Byte := [x.b0, x.b1]

/-- The bytes of a 32-bit object in address order. -/
def u32_mem.bytes (x : u32_mem) : List Byte := [x.b0, x.b1, x.b2, x.b3]

/-- Memory image of the `std::uint32_t` value `x` on a little-endian host. -/
def host_u32 (x : Nat) : u32_mem :=
  ⟨u8 x, u8 (x >>> 8), u8 (x >>> 16), u8 (x >>> 24)⟩

/-- A single byte store `m[i] = v`. -/
def wr (m : Nat → Byte) (i : Nat) (v : Byte) : Nat → Byte :=
  fun j => if j = i then v else m j

/-- The call `memcpy(m + off, src, n)` for a source object given by its `n` bytes. -/
def memcpy (m : Nat → Byte) (off : Nat) (src : List Byte) : Nat → Byte :=
  fun j => if off ≤ j ∧ j < off + src.length then src.getD (j - off) 0 else m j

/-- A `std::vector<std::uint8_t>`: its `size()` and the memory at `data()`. -/
structure byte_vector where
  size : Nat
  data : Nat → Byte

/-! ## Constants of the platform headers -/

/-- Link-layer type of the BSD loopback encapsulation (`pcap/dlt.h`). -/
def DLT_NULL : Int := 0

/-- Address family of IPv4 (`sys/socket.h`). -/
def AF_INET : Nat := 2

/-! ## `packet_buffer::append` -/

/-- A `sockaddr`, read as a `sockaddr_in` when its family is `AF_INET` (BSD layout,
with the length member first). -/
structure sockaddr where
  sa_len : Nat
  sa_family : Nat
  sin_port : u16_mem
  sin_addr : u32_mem
  deriving DecidableEq

/-- The members of `packet_buffer` that `append` and `send` use. -/
structure packet_buffer where
  m_link_layer : Int
  m_send_cursor : Nat
  m_from_ipv4 : u32_mem
  m_buf : byte_vector

/-- The first loop of `append`: `for (i < num) buf_size += v[i].iov_len`. -/
def iov_total (v : List (List Byte)) : Nat :=
  v.foldl (fun buf_size seg => buf_size + seg.length) 0

/-- The checksum loop of `append`:
`for (i = 0; i < 20; i += 2) chk += (ip_header[i] << 8) | ip_header[i+1]`
on a `std::uint16_t` accumulator. -/
def ip_header_sum (m : Nat → Byte) (ip_header : Nat) : Nat :=
  (List.range 10).foldl
    (fun chk k =>
      (chk + (((m (ip_header + 2 * k)).val <<< 8) ||| (m (ip_header + 2 * k + 1)).val)) % 65536)
    0

/-- The payload loop of `append`:
`memcpy(ptr, v[i].iov_base, v[i].iov_len); ptr += v[i].iov_len; len += v[i].iov_len`.
The result is the memory, `ptr` and `len` after the loop. -/
def copy_iov (m : Nat → Byte) (ptr len : Nat) : List (List Byte) → (Nat → Byte) × Nat × Nat
  | [] => (m, ptr, len)
  | seg :: rest => copy_iov (memcpy m ptr seg) (ptr + seg.length) (len + seg.length) rest

/-- The function `packet_buffer::append(v, num, to, tolen)`, with the global
`listen_port` as a parameter; `v` lists the contents of the `num` segments and `to_`
is the source's `to`. The result is the returned flag and the batch
afterwards. -/
def append (listen_port : Int) (b : packet_buffer) (v : List (List Byte)) (to_ : sockaddr) :
    Bool × packet_buffer :=
  let buf_size := iov_total v
  if buf_size > 1500 - 28 - 30 then (false, b)
  else if b.m_send_cursor + buf_size + 28 + 30 > b.m_buf.size then (false, b)
  else
    let pfx := b.m_send_cursor
    let ptr := b.m_send_cursor + 2
    let len := 0
    if b.m_link_layer = DLT_NULL then
      let m := memcpy b.m_buf.data ptr (host_u32 2).bytes
      let ptr := ptr + 4
      let len := len + 4
      if to_.sa_family ≠ AF_INET then
        (false, { b with m_buf := { b.m_buf with data := m } })
      else
        let ip_header := ptr
        let m := wr m (ip_header + 0) (u8 ((4 <<< 4) ||| 5))
        let m := wr m (ip_header + 1) 0
        let m := wr m (ip_header + 2) (u8 ((buf_size + 20 + 8) >>> 8))
        let m := wr m (ip_header + 3) (u8 ((buf_size + 20 + 8) &&& 0xff))
        let m := wr m (ip_header + 4) 0
        let m := wr m (ip_header + 5) 0
        let m := wr m (ip_header + 6) 0
        let m := wr m (ip_header + 7) 0
        let m := wr m (ip_header + 8) 0x4
        let m := wr m (ip_header + 9) 17
        let m := wr m (ip_header + 10) 0
        let m := wr m (ip_header + 11) 0
        let m := memcpy m (ip_header + 12) b.m_from_ipv4.bytes
        let m := memcpy m (ip_header + 16) to_.sin_addr.bytes
        let chk := ip_header_sum m ip_header
        let chk := 65535 - chk
        let m := wr m (ip_header + 10) (u8 (chk >>> 8))
        let m := wr m (ip_header + 11) (u8 (chk &&& 0xff))
        let ptr := ptr + 20
        let len := len + 20
        let udp_header := ip_header + 20
        let m := wr m (udp_header + 0) (u8i (listen_port >>> 8))
        let m := wr m (udp_header + 1) (u8i (Int.land listen_port 0xff))
        let m := memcpy m (udp_header + 2) to_.sin_port.bytes
        let m := wr m (udp_header + 4) (u8 ((buf_size + 8) >>> 8))
        let m := wr m (udp_header + 5) (u8 ((buf_size + 8) &&& 0xff))
        let m := wr m (udp_header + 6) 0
        let m := wr m (udp_header + 7) 0
        let ptr := ptr + 8
        let len := len + 8
        let r := copy_iov m ptr len v
        let m := r.1
        let len := r.2.2
        let m := wr m (pfx + 0) (u8 ((len >>> 8) &&& 0xff))
        let m := wr m (pfx + 1) (u8 (len &&& 0xff))
        (true, { b with m_send_cursor := b.m_send_cursor + (len + 2),
                        m_buf := { b.m_buf with data := m } })
    else (false, b)

/-! ## `packet_socket::send` -/

/-- The call `memcpy(dst + off, src, n)` between two memories. -/
def memcpy_from (dst : Nat → Byte) (off : Nat) (src : Nat → Byte) (n : Nat) : Nat → Byte :=
  fun j => if off ≤ j ∧ j < off + n then src (j - off) else dst j

/-- The members of `packet_socket` on the send path: the two send buffers
`m_send_buffer[2]` (as a map from index to vector), the cursor into the active
one and its index. The global counter `bytes_out` (a `std::atomic<uint32_t>`) is
carried along. -/
structure packet_socket where
  m_closed : Nat
  m_our_ipv4 : u32_mem
  m_link_layer : Int
  m_send_buffer : Nat → byte_vector
  m_send_cursor : Nat
  m_buffer_idx : Nat
  bytes_out : Nat

/-- The function `packet_socket::send(packets)`: the returned flag, the socket
afterwards and the caller's batch afterwards. -/
def send (s : packet_socket) (packets : packet_buffer) : Bool × packet_socket × packet_buffer :=
  if packets.m_send_cursor = 0 then (true, s, packets)
  else if s.m_send_cursor + packets.m_send_cursor > (s.m_send_buffer s.m_buffer_idx).size then
    (false, s, { packets with m_send_cursor := 0 })
  else
    let bytes_out := (s.bytes_out + packets.m_send_cursor) % 4294967296
    let active := s.m_send_buffer s.m_buffer_idx
    let data := memcpy_from active.data s.m_send_cursor packets.m_buf.data packets.m_send_cursor
    let m_send_buffer : Nat → byte_vector :=
      fun i => if i = s.m_buffer_idx then { active with data := data } else s.m_send_buffer i
    (true,
     { s with bytes_out := bytes_out, m_send_buffer := m_send_buffer,
              m_send_cursor := s.m_send_cursor + packets.m_send_cursor },
     { packets with m_send_cursor := 0 })

/-! ## `packet_handler` -/

/-- The header `pcap_pkthdr` of a captured frame (both lengths are `bpf_u_int32`). -/
structure pcap_pkthdr where
  caplen : Nat
  len : Nat
  deriving DecidableEq

/-- An entry `incoming_packet_t` of the caller's array: `buffer` is the index of the
arena word the payload pointer refers to. -/
structure incoming_packet_t where
  buffer : Int
  buflen : Int
  from_ : sockaddr
  fromlen : Nat
  deriving DecidableEq

/-- The struct `receive_state`, without the capture handle. `buffer` is the arena
(an array of `uint64_t`) addressed by byte, so word `w` starts at byte `8 * w`. -/
structure receive_state where
  pkts : Int → incoming_packet_t
  len : Int
  current : Int
  buffer : Int → Byte
  buffer_offset : Int
  link_header_size : Int

/-- Conversion of a 32-bit unsigned result to `int`. -/
def to_int32 (x : Int) : Int := (x + 2147483648) % 4294967296 - 2147483648

/-- The size `sizeof(sockaddr_in)`. -/
def sizeof_sockaddr_in : Nat := 16

/-- The call `memcpy(dst + off, src + soff, n)` on memories addressed by integers,
for an `int` count `n`. A count that is not positive copies nothing here; the
source would convert a negative count to a huge `size_t`, which C leaves
undefined. -/
def memcpy_at (dst : Int → Byte) (off : Int) (src : Int → Byte) (soff n : Int) : Int → Byte :=
  fun j => if off ≤ j ∧ j < off + n then src (soff + (j - off)) else dst j

/-- The callback `packet_handler(user, h, bytes)`, with the global `listen_port` and
the constant `receive_buffer_size` as parameters. The result is the state
afterwards and whether `pcap_breakloop` was called. -/
def packet_handler (listen_port receive_buffer_size : Int) (st : receive_state)
    (h : pcap_pkthdr) (bytes : Int → Byte) : receive_state × Bool :=
  if st.current ≥ st.len then (st, true)
  else
    let ip_header := st.link_header_size
    if (bytes (ip_header + 0)).val ≠ 0x45 then (st, false)
    else if (bytes (ip_header + 6)).val &&& 0x20 ≠ 0 then (st, false)
    else if (bytes (ip_header + 6)).val &&& 0x1f ≠ 0 ∨ (bytes (ip_header + 7)).val ≠ 0 then
      (st, false)
    else if (bytes (ip_header + 9)).val ≠ 0x11 then (st, false)
    else
      let udp_header := ip_header + 20
      if ((((bytes (udp_header + 2)).val <<< 8) ||| (bytes (udp_header + 3)).val : Nat) : Int)
          ≠ listen_port then (st, false)
      else
        let len := to_int32 ((h.caplen : Int) - 28 - st.link_header_size)
        let payload := 28 + st.link_header_size
        if len > 1500 then (st, false)
        else
          let len8 := (len + 7).tdiv 8
          let buffer := memcpy_at st.buffer (8 * st.buffer_offset) bytes payload len
          let pkt : incoming_packet_t :=
            { buffer := st.buffer_offset
              buflen := len
              from_ :=
                { sa_len := sizeof_sockaddr_in
                  sa_family := AF_INET
                  sin_port := ⟨bytes (udp_header + 0), bytes (udp_header + 1)⟩
                  sin_addr := ⟨bytes (ip_header + 12), bytes (ip_header + 13),
                               bytes (ip_header + 14), bytes (ip_header + 15)⟩ }
              fromlen := sizeof_sockaddr_in }
          let st : receive_state :=
            { st with
              buffer := buffer
              pkts := fun i => if i = st.current then pkt else st.pkts i
              buffer_offset := st.buffer_offset + len8
              current := st.current + 1 }
          if st.buffer_offset + 1500 / 8 > receive_buffer_size then (st, true)
          else (st, false)

/-- The memory seen through the pointer `m + off`, read at non-negative offsets. -/
def ptr_at (m : Nat → Byte) (off : Nat) : Int → Byte :=
  fun i => m (off + i.toNat)

/-- A captured frame: its header and the memory at `bytes`. -/
structure frame where
  h : pcap_pkthdr
  bytes : Int → Byte

/-- The callback loop inside `pcap_dispatch` over the frames the device has ready:
frames are handed to `packet_handler` in order until `cnt` of them were processed
or the callback called `pcap_breakloop`. -/
def dispatch_loop (listen_port receive_buffer_size : Int) :
    Nat → List frame → receive_state → receive_state
  | 0, _, st => st
  | _, [], st => st
  | cnt + 1, f :: rest, st =>
    let r := packet_handler listen_port receive_buffer_size st f.h f.bytes
    if r.2 then r.1 else dispatch_loop listen_port receive_buffer_size cnt rest r.1

/-- The call `pcap_dispatch(handle, cnt, packet_handler, &st)`: a `cnt` of zero or
less places no limit on the number of frames processed. -/
def pcap_dispatch (listen_port receive_buffer_size cnt : Int) (frames : List frame)
    (st : receive_state) : receive_state :=
  dispatch_loop listen_port receive_buffer_size
    (if cnt ≤ 0 then frames.length else cnt.toNat) frames st

/-- The state `receive(in_packets, num)` sets up before its loop, for the
`DLT_NULL` link layer. -/
def receive_init (in_packets : Int → incoming_packet_t) (num : Int) (m_buffer : Int → Byte) :
    receive_state :=
  { pkts := in_packets, len := num, current := 0, buffer := m_buffer, buffer_offset := 0,
    link_header_size := 4 }

/-- The snap length the constructor sets with `pcap_set_snaplen(m_pcap, 1500)` before
it activates the capture handle: the device delivers no frame with a larger
captured length. -/
def snaplen : Nat := 1500

/-! ## Reading memory back -/

/-- The `n` bytes of memory starting at offset `off`. -/
def read (m : Nat → Byte) (off n : Nat) : List Byte :=
  (List.range n).map fun i => m (off + i)

/-- The 16-bit value whose big-endian encoding is the two bytes at `off`. -/
def be16 (m : Nat → Byte) (off : Nat) : Nat :=
  256 * (m off).val + (m (off + 1)).val

/-- The `n` bytes of integer-addressed memory starting at offset `off`. -/
def read_at (m : Int → Byte) (off : Int) (n : Nat) : List Byte :=
  (List.range n).map fun (i : Nat) => m (off + (i : Int))

/-- The payload a descriptor refers to: `buflen` bytes of the arena from word
`buffer` on. -/
def incoming_packet_t.payload (pkt : incoming_packet_t) (arena : Int → Byte) : List Byte :=
  read_at arena (8 * pkt.buffer) pkt.buflen.toNat

/-! ## The Internet checksum, as the specification words it -/

/-- One's-complement addition of two 16-bit words: the carry out of bit 15 is added
back in (end-around carry). -/
def ones_complement_add (a b : Nat) : Nat :=
  (a + b) % 65536 + (a + b) / 65536

/-- One's-complement sum of a list of 16-bit words. -/
def ones_complement_sum (words : List Nat) : Nat :=
  words.foldl ones_complement_add 0

/-- The ten 16-bit big-endian words of the 20-byte IP header at `ip_header`. -/
def ip_header_words (m : Nat → Byte) (ip_header : Nat) : List Nat :=
  (List.range 10).map fun k => be16 m (ip_header + 2 * k)

/-! ## Sample inputs -/

/-- An all-zero memory. -/
def zero_mem : Nat → Byte := fun _ => 0

/-- An empty batch of 4096 bytes for the `DLT_NULL` link layer with source address
`a.b.c.d`. -/
def sample_batch (a b c d : Byte) : packet_buffer :=
  { m_link_layer := DLT_NULL, m_send_cursor := 0, m_from_ipv4 := ⟨a, b, c, d⟩,
    m_buf := ⟨4096, zero_mem⟩ }

/-- The IPv4 destination `a.b.c.d` with the port whose network-order bytes are
`p0 p1`. -/
def sample_dest (a b c d p0 p1 : Byte) : sockaddr :=
  { sa_len := sizeof_sockaddr_in, sa_family := AF_INET, sin_port := ⟨p0, p1⟩,
    sin_addr := ⟨a, b, c, d⟩ }

/-- A twelve-byte payload in two segments. -/
def sample_payload : List (List Byte) := [[1, 2, 3, 4, 5, 6, 7], [8, 9, 10, 11, 12]]

/-- A payload of one segment of `n` zero bytes. -/
def zero_payload (n : Nat) : List (List Byte) := [List.replicate n 0]

/-- An all-zero descriptor. -/
def zero_packet : incoming_packet_t :=
  { buffer := 0, buflen := 0, from_ := ⟨0, 0, ⟨0, 0⟩, ⟨0, 0, 0, 0⟩⟩, fromlen := 0 }

/-- The state at the start of a `receive` call for `num` descriptors, all memory
zero. -/
def sample_state (num : Int) : receive_state :=
  receive_init (fun _ => zero_packet) num (fun _ => 0)

/-- The memory of a captured `DLT_NULL` frame with a plain IPv4 header (byte 6 of
the IP header being `flags`), protocol UDP and destination port 8080; every other
byte is zero. -/
def sample_frame_bytes (flags : Byte) : Int → Byte :=
  fun i =>
    if i = 4 then 0x45 else if i = 4 + 6 then flags else if i = 4 + 9 then 17
    else if i = 4 + 20 + 2 then 0x1f else if i = 4 + 20 + 3 then 0x90 else 0

/-- A captured frame of `caplen` bytes with the header of `sample_frame_bytes 0`. -/
def sample_frame (caplen : Nat) : frame :=
  { h := ⟨caplen, caplen⟩, bytes := sample_frame_bytes 0 }

/-! ## `packet_socket::close` and `packet_socket::send_thread` -/

/-- The function `packet_socket::close()`: it stores 1 in `m_closed` (and asks the
capture device to break its loop, which is outside the state). -/
def close (s : packet_socket) : packet_socket :=
  { s with m_closed := 1 }

/-- The locked section of one round of `send_thread`. With nothing pending the thread
only sets `sleep` (`none`). Otherwise `buf` becomes the active buffer, the active
index is flipped with `(m_buffer_idx + 1) & 1`, `end` becomes the cursor and the
cursor is reset; the result is the socket afterwards, the index of the buffer
`buf` points to, and `end`. -/
def send_thread_swap (s : packet_socket) : Option (packet_socket × Nat × Nat) :=
  if s.m_send_cursor = 0 then none
  else
    some ({ s with m_buffer_idx := (s.m_buffer_idx + 1) &&& 1, m_send_cursor := 0 },
      s.m_buffer_idx, s.m_send_cursor)

/-- One call `pcap_sendpacket(m_pcap, buf->data() + i, len)` of the transmit loop. -/
structure sendpacket_call where
  i : Nat
  len : Nat
  deriving DecidableEq

/-- The transmit loop of `send_thread`,
`for (int i = 0; i < end;) { len = (buf[i] << 8) | buf[i+1]; i += 2; send; i += len; }`,
started at index `i` and run for at most the given number of rounds. The result is
the list of `pcap_sendpacket` calls made and the index reached. -/
def send_thread_loop (buf : Nat → Byte) (end_ : Nat) : Nat → Nat → List sendpacket_call × Nat
  | 0, i => ([], i)
  | rounds + 1, i =>
    if i < end_ then
      let len := ((buf i).val <<< 8) ||| (buf (i + 1)).val
      let i := i + 2
      let r := send_thread_loop buf end_ rounds (i + len)
      (⟨i, len⟩ :: r.1, r.2)
    else ([], i)

/-- The transmit loop over the drained buffer `[0, end)`. Every round advances the
index by at least 2, so `end` rounds are enough for the loop to finish. -/
def send_thread_drain (buf : Nat → Byte) (end_ : Nat) : List sendpacket_call × Nat :=
  send_thread_loop buf end_ end_ 0

/-- The three assertions of one round of the transmit loop over a buffer of `size`
bytes: `len <= 1500`, `len > 0` and `buf->size() - i >= len`. The last one is read
over the integers, which is at least as strong as the `size_t` comparison of the
source. -/
def loop_asserts (size : Nat) (c : sendpacket_call) : Bool :=
  decide (c.len ≤ 1500) && decide (c.len > 0) && decide ((size : Int) - c.i ≥ c.len)

/-- The bytes handed to the capture device by one `pcap_sendpacket` call. -/
def sendpacket_call.bytes (buf : Nat → Byte) (c : sendpacket_call) : List Byte :=
  read buf c.i c.len

/-! ## `packet_socket::receive` -/

/-- What one `pcap_dispatch` call finds: the frames the device has ready and the
value `r` the call returns (the number of frames processed, or a negative error
code). -/
structure dispatch_round where
  frames : List frame
  r : Int

/-- How a `receive` call ends: it returns a value, the process exits, or the call is
still blocked when the device has nothing more to deliver. -/
inductive receive_outcome where
  | returned (r : Int)
  | exited (code : Int)
  | blocked
  deriving DecidableEq

/-- The result of a `receive` call: how it ended, the `receive_state` at that point
and the number of `pcap_dispatch` calls made. -/
structure receive_result where
  outcome : receive_outcome
  st : receive_state
  dispatched : Nat

/-- The `while (true)` loop of `receive`, one round per `pcap_dispatch` call. The
closed flag is read at the top of every round. -/
def receive_loop (listen_port receive_buffer_size : Int) (m_closed : Nat) (num : Int) :
    List dispatch_round → receive_state → Nat → receive_result
  | [], st, n =>
    if m_closed ≠ 0 then ⟨.returned (-1), st, n⟩ else ⟨.blocked, st, n⟩
  | rd :: rest, st, n =>
    if m_closed ≠ 0 then ⟨.returned (-1), st, n⟩
    else
      let st := pcap_dispatch listen_port receive_buffer_size (num - st.current) rd.frames st
      if rd.r < 0 then
        if rd.r = -3 then ⟨.exited 2, st, n + 1⟩ else ⟨.returned (-1), st, n + 1⟩
      else if st.current ≠ 0 then ⟨.returned st.current, st, n + 1⟩
      else receive_loop listen_port receive_buffer_size m_closed num rest st (n + 1)

/-- The function `packet_socket::receive(in_packets, num)` against the rounds the
capture device goes through, with the arena `m_buffer`. For a link layer other
than `DLT_NULL` the source leaves `link_header_size` unset; `unset` is the value
it then happens to hold. -/
def receive (listen_port receive_buffer_size : Int) (s : packet_socket)
    (rounds : List dispatch_round) (in_packets : Int → incoming_packet_t) (num : Int)
    (m_buffer : Int → Byte) (unset : Int) : receive_result :=
  let st := receive_init in_packets num m_buffer
  let st := if s.m_link_layer = DLT_NULL then st else { st with link_header_size := unset }
  receive_loop listen_port receive_buffer_size s.m_closed num rounds st 0

/-! ## Length-prefixed frames in a buffer -/

/-- The bytes of `buf` from `i` up to `e` are exactly the frames `fs`, one after the
other, each preceded by the big-endian 16-bit encoding of its length. -/
def framed (buf : Nat → Byte) : Nat → List (List Byte) → Nat → Prop
  | i, [], e => i = e
  | i, f :: rest, e =>
    be16 buf i = f.length ∧ read buf (i + 2) f.length = f ∧
      framed buf (i + 2 + f.length) rest e

instance framed_decidable (buf : Nat → Byte) :
    ∀ (i : Nat) (fs : List (List Byte)) (e : Nat), Decidable (framed buf i fs e)
  | i, [], e => inferInstanceAs (Decidable (i = e))
  | i, f :: rest, e =>
    have := framed_decidable buf (i + 2 + f.length) rest e
    inferInstanceAs (Decidable (be16 buf i = f.length ∧ read buf (i + 2) f.length = f ∧
      framed buf (i + 2 + f.length) rest e))

/-! ## Sequences of calls on the send path -/

/-- One `append` call of a producer: the payload segments and the destination. -/
structure append_call where
  v : List (List Byte)
  to_ : sockaddr

/-- A sequence of `append` calls on one batch, whatever each call returns. The result
is the batch afterwards, the frames of the calls that returned true (the bytes
between the 2-byte prefix and the new cursor, as written by the call) and whether
every call returned true. -/
def append_seq (listen_port : Int) :
    packet_buffer → List append_call → packet_buffer × List (List Byte) × Bool
  | b, [] => (b, [], true)
  | b, c :: rest =>
    let r := append listen_port b c.v c.to_
    let t := append_seq listen_port r.2 rest
    if r.1 then
      (t.1, read r.2.m_buf.data (b.m_send_cursor + 2)
        (r.2.m_send_cursor - (b.m_send_cursor + 2)) :: t.2.1, t.2.2)
    else (t.1, t.2.1, false)

/-- A sequence of batches, each filled by a sequence of `append` calls and then handed
to the socket with `send`. The result is the socket afterwards, the frames of the
batches whose `send` returned true, and whether every `append` and every `send`
returned true. -/
def hand_over (listen_port : Int) :
    packet_socket → List (packet_buffer × List append_call) →
      packet_socket × List (List Byte) × Bool
  | s, [] => (s, [], true)
  | s, bc :: rest =>
    let a := append_seq listen_port bc.1 bc.2
    let r := send s a.1
    let t := hand_over listen_port r.2.1 rest
    if r.1 then (t.1, a.2.1 ++ t.2.1, a.2.2 && t.2.2) else (t.1, t.2.1, false)

/-- A socket with two all-zero send buffers of `size` bytes, nothing pending. -/
def sample_socket (size : Nat) : packet_socket :=
  { m_closed := 0, m_our_ipv4 := ⟨10, 0, 0, 1⟩, m_link_layer := DLT_NULL,
    m_send_buffer := fun _ => ⟨size, zero_mem⟩, m_send_cursor := 0, m_buffer_idx := 0,
    bytes_out := 0 }

/-- Two `append` calls: the sample payload and a three-byte payload, both to
10.0.0.5:6000. -/
def sample_calls : List append_call :=
  [⟨sample_payload, sample_dest 10 0 0 5 0x17 0x70⟩, ⟨[[7, 7, 7]], sample_dest 10 0 0 5 0x17 0x70⟩]

/-- Two batches, each filled with `sample_calls`. -/
def sample_script : List (packet_buffer × List append_call) :=
  [(sample_batch 10 0 0 1, sample_calls), (sample_batch 10 0 0 1, sample_calls)]

/-- An operation on the send channel: a producer's `send` or the transmitter's locked
section. -/
inductive channel_op where
  | send (packets : packet_buffer)
  | swap

/-- The socket after one operation on the send channel. -/
def channel_step (s : packet_socket) : channel_op → packet_socket
  | .send packets => (send s packets).2.1
  | .swap =>
    match send_thread_swap s with
    | none => s
    | some r => r.1

/-- The socket after a sequence of operations on the send channel. -/
def channel_run (s : packet_socket) (ops : List channel_op) : packet_socket :=
  ops.foldl channel_step s

/-- The socket after a sequence of `send` calls. -/
def send_all (s : packet_socket) (batches : List packet_buffer) : packet_socket :=
  batches.foldl (fun s packets => (send s packets).2.1) s

/-! ## Facts about the model -/

theorem wr_apply (m : Nat → Byte) (i : Nat) (v : Byte) (j : Nat) :
    wr m i v j = if j = i then v else m j := rfl

theorem memcpy_apply (m : Nat → Byte) (off : Nat) (src : List Byte) (j : Nat) :
    memcpy m off src j = if off ≤ j ∧ j < off + src.length then src.getD (j - off) 0 else m j :=
  rfl

theorem iov_total_foldl (v : List (List Byte)) (a : Nat) :
    v.foldl (fun buf_size seg => buf_size + seg.length) a = a + iov_total v := by
  induction v generalizing a with
  | nil => simp [iov_total]
  | cons seg rest ih =>
    simp only [iov_total, List.foldl_cons, Nat.zero_add]
    rw [ih, ih seg.length]
    omega

theorem iov_total_nil : iov_total [] = 0 := rfl

theorem iov_total_cons (seg : List Byte) (rest : List (List Byte)) :
    iov_total (seg :: rest) = seg.length + iov_total rest := by
  simp only [iov_total, List.foldl_cons, Nat.zero_add]
  rw [iov_total_foldl]
  rfl

theorem iov_total_eq_length_flatten (v : List (List Byte)) : iov_total v = v.flatten.length := by
  induction v with
  | nil => rfl
  | cons seg rest ih => simp [iov_total_cons, ih]

theorem copy_iov_len (m : Nat → Byte) (ptr len : Nat) (v : List (List Byte)) :
    (copy_iov m ptr len v).2.2 = len + iov_total v := by
  induction v generalizing m ptr len with
  | nil => simp [copy_iov, iov_total_nil]
  | cons seg rest ih => simp only [copy_iov, ih, iov_total_cons]; omega

theorem copy_iov_ptr (m : Nat → Byte) (ptr len : Nat) (v : List (List Byte)) :
    (copy_iov m ptr len v).2.1 = ptr + iov_total v := by
  induction v generalizing m ptr len with
  | nil => simp [copy_iov, iov_total_nil]
  | cons seg rest ih => simp only [copy_iov, ih, iov_total_cons]; omega

theorem copy_iov_apply (m : Nat → Byte) (ptr len : Nat) (v : List (List Byte)) (j : Nat) :
    (copy_iov m ptr len v).1 j =
      if ptr ≤ j ∧ j < ptr + iov_total v then v.flatten.getD (j - ptr) 0 else m j := by
  induction v generalizing m ptr len with
  | nil =>
    have h : ¬ (ptr ≤ j ∧ j < ptr + 0) := by omega
    simp only [copy_iov, iov_total_nil, if_neg h]
  | cons seg rest ih =>
    simp only [copy_iov, ih, iov_total_cons, memcpy_apply, List.flatten_cons]
    by_cases h1 : ptr + seg.length ≤ j
    · by_cases h2 : j < ptr + seg.length + iov_total rest
      · have e : j - ptr = seg.length + (j - (ptr + seg.length)) := by omega
        rw [if_pos ⟨h1, h2⟩, if_pos ⟨by omega, by omega⟩, e, List.getD_append_right _ _ _ _ (by omega)]
        simp
      · rw [if_neg (by omega), if_neg (by omega), if_neg (by omega)]
    · by_cases h3 : ptr ≤ j
      · rw [if_neg (by omega), if_pos ⟨h3, by omega⟩, if_pos ⟨h3, by omega⟩,
          List.getD_append _ _ _ _ (by omega)]
      · rw [if_neg (by omega), if_neg (by omega), if_neg (by omega)]

theorem and_ff (x : Nat) : x &&& 0xff = x % 256 := Nat.and_pow_two_sub_one_eq_mod x 8

theorem shl8_or (a b : Nat) (h : b < 256) : (a <<< 8) ||| b = 256 * a + b := by
  rw [Nat.shiftLeft_eq, Nat.mul_comm]
  exact (Nat.mul_add_lt_is_or (i := 8) h a).symm

theorem u8_val (x : Nat) : (u8 x).val = x % 256 := rfl

theorem u8i_shr8 (p : Nat) : (u8i ((p : Int) >>> 8)).val = p / 256 % 256 := by
  have e : ((p : Int) >>> 8) = ((p >>> 8 : Nat) : Int) := rfl
  rw [e, Nat.shiftRight_eq_div_pow]
  simp only [u8i]
  omega

theorem u8i_land (p : Nat) : (u8i (Int.land (p : Int) 0xff)).val = p % 256 := by
  have e : Int.land (p : Int) 0xff = ((p &&& 0xff : Nat) : Int) := rfl
  rw [e, and_ff]
  simp only [u8i]
  omega

theorem iov_total_eq_sum (v : List (List Byte)) : iov_total v = (v.map List.length).sum := by
  induction v with
  | nil => rfl
  | cons seg rest ih => simp [iov_total_cons, ih]

theorem append_ok_iff (listen_port : Int) (b : packet_buffer) (v : List (List Byte))
    (to_ : sockaddr) :
    (append listen_port b v to_).1 = true ↔
      iov_total v ≤ 1442 ∧ b.m_send_cursor + iov_total v + 58 ≤ b.m_buf.size ∧
        b.m_link_layer = DLT_NULL ∧ to_.sa_family = AF_INET := by
  unfold append
  simp only []
  split_ifs <;> simp <;> omega

/-- The memory of the batch after a successful `append`. -/
theorem append_ok_data (listen_port : Int) (b : packet_buffer) (v : List (List Byte))
    (to_ : sockaddr) (h : (append listen_port b v to_).1 = true) :
    (append listen_port b v to_).2.m_buf.data =
      let c := b.m_send_cursor
      let n := iov_total v
      let m := memcpy b.m_buf.data (c + 2) (host_u32 2).bytes
      let m := wr m (c + 6) (u8 ((4 <<< 4) ||| 5))
      let m := wr m (c + 7) 0
      let m := wr m (c + 8) (u8 ((n + 20 + 8) >>> 8))
      let m := wr m (c + 9) (u8 ((n + 20 + 8) &&& 0xff))
      let m := wr m (c + 10) 0
      let m := wr m (c + 11) 0
      let m := wr m (c + 12) 0
      let m := wr m (c + 13) 0
      let m := wr m (c + 14) 0x4
      let m := wr m (c + 15) 17
      let m := wr m (c + 16) 0
      let m := wr m (c + 17) 0
      let m := memcpy m (c + 18) b.m_from_ipv4.bytes
      let m := memcpy m (c + 22) to_.sin_addr.bytes
      let chk := 65535 - ip_header_sum m (c + 6)
      let m := wr m (c + 16) (u8 (chk >>> 8))
      let m := wr m (c + 17) (u8 (chk &&& 0xff))
      let m := wr m (c + 26) (u8i (listen_port >>> 8))
      let m := wr m (c + 27) (u8i (Int.land listen_port 0xff))
      let m := memcpy m (c + 28) to_.sin_port.bytes
      let m := wr m (c + 30) (u8 ((n + 8) >>> 8))
      let m := wr m (c + 31) (u8 ((n + 8) &&& 0xff))
      let m := wr m (c + 32) 0
      let m := wr m (c + 33) 0
      let m := (copy_iov m (c + 34) 32 v).1
      let m := wr m c (u8 (((32 + n) >>> 8) &&& 0xff))
      wr m (c + 1) (u8 ((32 + n) &&& 0xff)) := by
  obtain ⟨h1, h2, h3, h4⟩ := (append_ok_iff listen_port b v to_).1 h
  unfold append
  simp only []
  rw [if_neg (by omega), if_neg (by omega), if_pos h3, if_neg (by simp [h4])]
  simp only [copy_iov_len, Nat.add_assoc, Nat.zero_add, Nat.add_zero, Nat.reduceAdd]

theorem append_ok_cursor (listen_port : Int) (b : packet_buffer) (v : List (List Byte))
    (to_ : sockaddr) (h : (append listen_port b v to_).1 = true) :
    (append listen_port b v to_).2.m_send_cursor = b.m_send_cursor + iov_total v + 34 := by
  obtain ⟨h1, h2, h3, h4⟩ := (append_ok_iff listen_port b v to_).1 h
  unfold append
  simp only []
  rw [if_neg (by omega), if_neg (by omega), if_pos h3, if_neg (by simp [h4])]
  simp only [copy_iov_len]
  omega

/-! ## The bytes of a successfully appended frame -/

theorem read_two (m : Nat → Byte) (off : Nat) : read m off 2 = [m off, m (off + 1)] := by
  simp [read, List.range_succ]

theorem read_four (m : Nat → Byte) (off : Nat) :
    read m off 4 = [m off, m (off + 1), m (off + 2), m (off + 3)] := by
  simp [read, List.range_succ]

theorem u8_version_ihl : u8 69 = 0x45 := by decide

theorem append_ok_length_bytes (listen_port : Int) (b : packet_buffer) (v : List (List Byte))
    (to_ : sockaddr) (h : (append listen_port b v to_).1 = true) :
    (append listen_port b v to_).2.m_buf.data b.m_send_cursor =
      u8 ((iov_total v + 32) / 256) ∧
    (append listen_port b v to_).2.m_buf.data (b.m_send_cursor + 1) =
      u8 ((iov_total v + 32) % 256) := by
  obtain ⟨h1, h2, h3, h4⟩ := (append_ok_iff listen_port b v to_).1 h
  rw [append_ok_data _ _ _ _ h]
  constructor
  · simp [wr_apply, and_ff, Nat.shiftRight_eq_div_pow, u8, Fin.ext_iff]
    omega
  · simp [wr_apply, and_ff, u8, Fin.ext_iff]
    omega

theorem append_ok_link (listen_port : Int) (b : packet_buffer) (v : List (List Byte))
    (to_ : sockaddr) (h : (append listen_port b v to_).1 = true) :
    read (append listen_port b v to_).2.m_buf.data (b.m_send_cursor + 2) 4 =
      (host_u32 2).bytes := by
  rw [read_four, append_ok_data _ _ _ _ h]
  simp [wr_apply, memcpy_apply, copy_iov_apply, Nat.add_assoc, u32_mem.bytes]

theorem append_ok_ip (listen_port : Int) (b : packet_buffer) (v : List (List Byte))
    (to_ : sockaddr) (h : (append listen_port b v to_).1 = true) :
    (append listen_port b v to_).2.m_buf.data (b.m_send_cursor + 6) = 0x45 ∧
    (append listen_port b v to_).2.m_buf.data (b.m_send_cursor + 7) = 0 ∧
    (append listen_port b v to_).2.m_buf.data (b.m_send_cursor + 8) =
      u8 ((iov_total v + 28) / 256) ∧
    (append listen_port b v to_).2.m_buf.data (b.m_send_cursor + 9) =
      u8 ((iov_total v + 28) % 256) ∧
    read (append listen_port b v to_).2.m_buf.data (b.m_send_cursor + 10) 4 = [0, 0, 0, 0] ∧
    (append listen_port b v to_).2.m_buf.data (b.m_send_cursor + 14) = 4 ∧
    (append listen_port b v to_).2.m_buf.data (b.m_send_cursor + 15) = 17 ∧
    read (append listen_port b v to_).2.m_buf.data (b.m_send_cursor + 18) 4 =
      b.m_from_ipv4.bytes ∧
    read (append listen_port b v to_).2.m_buf.data (b.m_send_cursor + 22) 4 =
      to_.sin_addr.bytes := by
  simp only [read_four]
  rw [append_ok_data _ _ _ _ h]
  refine ⟨?_, ?_, ?_, ?_, ?_, ?_, ?_, ?_, ?_⟩
  · simp [wr_apply, memcpy_apply, copy_iov_apply, u8_version_ihl]
  · simp [wr_apply, memcpy_apply, copy_iov_apply]
  · simp [wr_apply, memcpy_apply, copy_iov_apply, Nat.shiftRight_eq_div_pow]
  · simp [wr_apply, memcpy_apply, copy_iov_apply, and_ff, u8, Fin.ext_iff]
  · simp [wr_apply, memcpy_apply, copy_iov_apply, Nat.add_assoc]
  · simp [wr_apply, memcpy_apply, copy_iov_apply]
  · simp [wr_apply, memcpy_apply, copy_iov_apply]
  · simp [wr_apply, memcpy_apply, copy_iov_apply, Nat.add_assoc, u32_mem.bytes]
  · simp [wr_apply, memcpy_apply, copy_iov_apply, Nat.add_assoc, u32_mem.bytes]

theorem append_ok_udp (listen_port : Int) (b : packet_buffer) (v : List (List Byte))
    (to_ : sockaddr) (h : (append listen_port b v to_).1 = true) :
    (append listen_port b v to_).2.m_buf.data (b.m_send_cursor + 26) =
      u8i (listen_port >>> 8) ∧
    (append listen_port b v to_).2.m_buf.data (b.m_send_cursor + 27) =
      u8i (Int.land listen_port 0xff) ∧
    read (append listen_port b v to_).2.m_buf.data (b.m_send_cursor + 28) 2 =
      to_.sin_port.bytes ∧
    (append listen_port b v to_).2.m_buf.data (b.m_send_cursor + 30) =
      u8 ((iov_total v + 8) / 256) ∧
    (append listen_port b v to_).2.m_buf.data (b.m_send_cursor + 31) =
      u8 ((iov_total v + 8) % 256) ∧
    read (append listen_port b v to_).2.m_buf.data (b.m_send_cursor + 32) 2 = [0, 0] := by
  simp only [read_two]
  rw [append_ok_data _ _ _ _ h]
  refine ⟨?_, ?_, ?_, ?_, ?_, ?_⟩
  · simp [wr_apply, memcpy_apply, copy_iov_apply]
  · simp [wr_apply, memcpy_apply, copy_iov_apply]
  · simp [wr_apply, memcpy_apply, copy_iov_apply, Nat.add_assoc, u16_mem.bytes]
  · simp [wr_apply, memcpy_apply, copy_iov_apply, Nat.shiftRight_eq_div_pow]
  · simp [wr_apply, memcpy_apply, copy_iov_apply, and_ff, u8, Fin.ext_iff]
  · simp [wr_apply, memcpy_apply, copy_iov_apply, Nat.add_assoc]

theorem append_ok_payload (listen_port : Int) (b : packet_buffer) (v : List (List Byte))
    (to_ : sockaddr) (h : (append listen_port b v to_).1 = true) (i : Nat)
    (hi : i < iov_total v) :
    (append listen_port b v to_).2.m_buf.data (b.m_send_cursor + 34 + i) = v.flatten.getD i 0 := by
  rw [append_ok_data _ _ _ _ h]
  have e : b.m_send_cursor + 34 + i - (b.m_send_cursor + 34) = i := by omega
  have c1 : ¬ b.m_send_cursor + 34 + i = b.m_send_cursor + 1 := by omega
  have c2 : ¬ b.m_send_cursor + 34 + i = b.m_send_cursor := by omega
  simp only [wr_apply, copy_iov_apply, c1, c2, if_false]
  rw [if_pos ⟨by omega, by omega⟩, e]

theorem append_ok_read_payload (listen_port : Int) (b : packet_buffer) (v : List (List Byte))
    (to_ : sockaddr) (h : (append listen_port b v to_).1 = true) :
    read (append listen_port b v to_).2.m_buf.data (b.m_send_cursor + 34) (iov_total v) =
      v.flatten := by
  apply List.ext_getElem
  · simp [read, iov_total_eq_length_flatten]
  · intro i h1 h2
    have hi : i < iov_total v := by simpa [read] using h1
    simp only [read, List.getElem_map, List.getElem_range]
    rw [append_ok_payload _ _ _ _ h i hi, List.getD_eq_getElem _ _ h2]

theorem append_ok_outside (listen_port : Int) (b : packet_buffer) (v : List (List Byte))
    (to_ : sockaddr) (h : (append listen_port b v to_).1 = true) (j : Nat)
    (hj : j < b.m_send_cursor ∨ b.m_send_cursor + 34 + iov_total v ≤ j) :
    (append listen_port b v to_).2.m_buf.data j = b.m_buf.data j := by
  rw [append_ok_data _ _ _ _ h]
  simp only [wr_apply, memcpy_apply, copy_iov_apply, u32_mem.bytes, u16_mem.bytes,
    List.length_cons, List.length_nil]
  repeat rw [if_neg (by omega)]

theorem and_1f (x : Nat) : x &&& 0x1f = x % 32 := Nat.and_pow_two_sub_one_eq_mod x 5

theorem to_int32_small (x : Int) (h0 : -2147483648 ≤ x) (h1 : x < 2147483648) :
    to_int32 x = x := by
  unfold to_int32
  omega

/-! ## A frame that passes the filter -/

/-- The state `packet_handler` leaves after recording a frame of payload length `len`. -/
theorem packet_handler_accept (listen_port receive_buffer_size : Int) (st : receive_state)
    (h : pcap_pkthdr) (bytes : Int → Byte)
    (hc : st.current < st.len)
    (h0 : bytes st.link_header_size = 0x45)
    (h6 : (bytes (st.link_header_size + 6)).val &&& 0x20 = 0)
    (h67 : (bytes (st.link_header_size + 6)).val &&& 0x1f = 0 ∧
      (bytes (st.link_header_size + 7)).val = 0)
    (h9 : bytes (st.link_header_size + 9) = 17)
    (hp : ((256 * (bytes (st.link_header_size + 20 + 2)).val +
        (bytes (st.link_header_size + 20 + 3)).val : Nat) : Int) = listen_port)
    (hlen : to_int32 ((h.caplen : Int) - 28 - st.link_header_size) ≤ 1500) :
    (packet_handler listen_port receive_buffer_size st h bytes).1 =
      { st with
        buffer := memcpy_at st.buffer (8 * st.buffer_offset) bytes (28 + st.link_header_size)
          (to_int32 ((h.caplen : Int) - 28 - st.link_header_size))
        pkts := fun i =>
          if i = st.current then
            { buffer := st.buffer_offset
              buflen := to_int32 ((h.caplen : Int) - 28 - st.link_header_size)
              from_ :=
                { sa_len := sizeof_sockaddr_in
                  sa_family := AF_INET
                  sin_port := ⟨bytes (st.link_header_size + 20 + 0),
                    bytes (st.link_header_size + 20 + 1)⟩
                  sin_addr := ⟨bytes (st.link_header_size + 12), bytes (st.link_header_size + 13),
                    bytes (st.link_header_size + 14), bytes (st.link_header_size + 15)⟩ }
              fromlen := sizeof_sockaddr_in }
          else st.pkts i
        buffer_offset := st.buffer_offset +
          (to_int32 ((h.caplen : Int) - 28 - st.link_header_size) + 7).tdiv 8
        current := st.current + 1 } ∧
    ((packet_handler listen_port receive_buffer_size st h bytes).2 = true ↔
      st.buffer_offset + (to_int32 ((h.caplen : Int) - 28 - st.link_header_size) + 7).tdiv 8
        + 1500 / 8 > receive_buffer_size) := by
  have e6 := shl8_or (bytes (st.link_header_size + 20 + 2)).val
    (bytes (st.link_header_size + 20 + 3)).val (bytes (st.link_header_size + 20 + 3)).isLt
  unfold packet_handler
  rw [if_neg (by omega)]
  dsimp only
  rw [Int.add_zero, if_neg (by rw [h0]; decide), if_neg (by simp [h6]),
    if_neg (by simp [h67.1, h67.2]), if_neg (by rw [h9]; decide), if_neg (by rw [e6, hp]; simp),
    if_neg (by omega)]
  split_ifs with hb
  · exact ⟨rfl, by simpa using hb⟩
  · exact ⟨rfl, by simpa using hb⟩

/-! ## C1: encoding a frame and decoding it again -/

/-- C1 (as stated, refuted): the twelve-byte sample payload sent from 10.0.0.1 to
10.0.0.5:6000 with listen port 8080 is encoded successfully, but `packet_handler`
with link header size 4 and four free descriptor slots records nothing for the
encoded frame: its destination port 6000 is not the listen port. -/
theorem roundtrip_other_port_dropped :
    (append 8080 (sample_batch 10 0 0 1) sample_payload
      (sample_dest 10 0 0 5 0x17 0x70)).1 = true ∧
    (sample_state 4).link_header_size = 4 ∧
    (sample_state 4).current < (sample_state 4).len ∧
    be16 (append 8080 (sample_batch 10 0 0 1) sample_payload
      (sample_dest 10 0 0 5 0x17 0x70)).2.m_buf.data 0 = 44 ∧
    (packet_handler 8080 1000 (sample_state 4) ⟨44, 44⟩
      (ptr_at (append 8080 (sample_batch 10 0 0 1) sample_payload
        (sample_dest 10 0 0 5 0x17 0x70)).2.m_buf.data 2)).1.current =
      (sample_state 4).current ∧
    (packet_handler 8080 1000 (sample_state 4) ⟨44, 44⟩
      (ptr_at (append 8080 (sample_batch 10 0 0 1) sample_payload
        (sample_dest 10 0 0 5 0x17 0x70)).2.m_buf.data 2)).1.pkts 0 = zero_packet := by
  decide

/-- C1 (amended): if `append` (fixed source address `S = m_from_ipv4`, listen port `P`)
succeeds for a destination whose port equals the listen port `P`, then feeding the
encoded frame (the bytes after the 2-byte prefix, captured length equal to the
prefix value) to `packet_handler` with link header size 4 and a non-full
descriptor array records exactly one descriptor: its payload bytes are the
original payload, its source address is `S`, its source port is the port written
in the frame, and the destination port carried in the frame is the original
destination port. -/
theorem append_packet_handler_roundtrip (listen_port receive_buffer_size : Int)
    (b : packet_buffer) (v : List (List Byte)) (to_ : sockaddr) (st : receive_state)
    (hok : (append listen_port b v to_).1 = true)
    (hport : ((256 * to_.sin_port.b0.val + to_.sin_port.b1.val : Nat) : Int) = listen_port)
    (hl : st.link_header_size = 4) (hc : st.current < st.len) :
    let d := (append listen_port b v to_).2.m_buf.data
    let caplen := be16 d b.m_send_cursor
    let st' := (packet_handler listen_port receive_buffer_size st ⟨caplen, caplen⟩
      (ptr_at d (b.m_send_cursor + 2))).1
    st'.current = st.current + 1 ∧
    (∀ i, i ≠ st.current → st'.pkts i = st.pkts i) ∧
    (st'.pkts st.current).buflen = (v.map List.length).sum ∧
    (st'.pkts st.current).payload st'.buffer = v.flatten ∧
    (st'.pkts st.current).from_.sa_family = AF_INET ∧
    (st'.pkts st.current).from_.sin_addr = b.m_from_ipv4 ∧
    (st'.pkts st.current).from_.sin_port.bytes = read d (b.m_send_cursor + 2 + 4 + 20) 2 ∧
    read d (b.m_send_cursor + 2 + 4 + 20 + 2) 2 = to_.sin_port.bytes := by
  intro d caplen st'
  obtain ⟨h1, h2, h3, h4⟩ := (append_ok_iff listen_port b v to_).1 hok
  obtain ⟨e0, e1⟩ := append_ok_length_bytes listen_port b v to_ hok
  obtain ⟨i0, i1, -, -, i4, -, i9, i12, -⟩ := append_ok_ip listen_port b v to_ hok
  obtain ⟨-, -, u2, -, -, -⟩ := append_ok_udp listen_port b v to_ hok
  have hcap : caplen = iov_total v + 32 := by
    simp only [caplen, d, be16, e0, e1, u8_val]; omega
  simp only [read_four, read_two, u32_mem.bytes, u16_mem.bytes, List.cons.injEq, and_true,
    Nat.add_assoc, Nat.reduceAdd] at i4 i12 u2
  have hlen : to_int32 (((⟨caplen, caplen⟩ : pcap_pkthdr).caplen : Int) - 28 -
      st.link_header_size) = (iov_total v : Int) := by
    rw [hl, hcap, to_int32_small] <;> simp only [Nat.cast_add, Nat.cast_ofNat] <;> omega
  have acc := (packet_handler_accept listen_port receive_buffer_size st ⟨caplen, caplen⟩
    (ptr_at d (b.m_send_cursor + 2)) hc
    (by simp only [hl, ptr_at, d]; exact i0)
    (by simp only [hl, ptr_at, d]; rw [show b.m_send_cursor + 2 + (4 + 6 : Int).toNat
          = b.m_send_cursor + 12 from by simp [Nat.add_assoc], i4.2.2.1]; decide)
    (by simp only [hl, ptr_at, d]
        rw [show b.m_send_cursor + 2 + (4 + 6 : Int).toNat
          = b.m_send_cursor + 12 from by simp [Nat.add_assoc], i4.2.2.1,
          show b.m_send_cursor + 2 + (4 + 7 : Int).toNat
          = b.m_send_cursor + 13 from by simp [Nat.add_assoc], i4.2.2.2]
        decide)
    (by simp only [hl, ptr_at, d]; exact i9)
    (by simp only [hl, ptr_at, d]
        rw [show b.m_send_cursor + 2 + (4 + 20 + 2 : Int).toNat
          = b.m_send_cursor + 28 from by simp [Nat.add_assoc], u2.1,
          show b.m_send_cursor + 2 + (4 + 20 + 3 : Int).toNat
          = b.m_send_cursor + 29 from by simp [Nat.add_assoc], u2.2]
        exact hport)
    (by rw [hlen]; omega)).1
  have hst : st' = _ := acc
  rw [hlen] at hst
  rw [hst]
  simp only [if_true, hl]
  refine ⟨trivial, ?_, ?_, ?_, trivial, ?_, ?_, ?_⟩
  · intro i hi
    rw [if_neg hi]
  · rw [iov_total_eq_sum]
  · simp only [incoming_packet_t.payload, Int.toNat_ofNat]
    rw [← append_ok_read_payload listen_port b v to_ hok]
    apply List.ext_getElem
    · simp [read, read_at]
    · intro i h1 h2
      have hi : i < iov_total v := by simpa [read_at] using h1
      simp only [read, read_at, List.getElem_map, List.getElem_range, memcpy_at, ptr_at]
      rw [if_pos ⟨by omega, by omega⟩]
      congr 1
      omega
  · simp [ptr_at, d, Nat.add_assoc, i12]
  · simp [ptr_at, d, Nat.add_assoc, read_two, u16_mem.bytes]
  · simp [d, Nat.add_assoc, read_two, u16_mem.bytes, u2]

/-- Witness for `append_packet_handler_roundtrip`: the twelve-byte sample payload sent
from 10.0.0.1 to 10.0.0.5:8080 with listen port 8080. -/
theorem append_packet_handler_roundtrip_witness :
    (append 8080 (sample_batch 10 0 0 1) sample_payload
      (sample_dest 10 0 0 5 0x1f 0x90)).1 = true ∧
    ((256 * (sample_dest 10 0 0 5 0x1f 0x90).sin_port.b0.val +
      (sample_dest 10 0 0 5 0x1f 0x90).sin_port.b1.val : Nat) : Int) = 8080 ∧
    (sample_state 4).link_header_size = 4 ∧
    (sample_state 4).current < (sample_state 4).len ∧
    (((packet_handler 8080 1000 (sample_state 4)
      ⟨be16 (append 8080 (sample_batch 10 0 0 1) sample_payload
          (sample_dest 10 0 0 5 0x1f 0x90)).2.m_buf.data (sample_batch 10 0 0 1).m_send_cursor,
        be16 (append 8080 (sample_batch 10 0 0 1) sample_payload
          (sample_dest 10 0 0 5 0x1f 0x90)).2.m_buf.data (sample_batch 10 0 0 1).m_send_cursor⟩
      (ptr_at (append 8080 (sample_batch 10 0 0 1) sample_payload
        (sample_dest 10 0 0 5 0x1f 0x90)).2.m_buf.data
        ((sample_batch 10 0 0 1).m_send_cursor + 2))).1.pkts (sample_state 4).current).payload
      (packet_handler 8080 1000 (sample_state 4)
      ⟨be16 (append 8080 (sample_batch 10 0 0 1) sample_payload
          (sample_dest 10 0 0 5 0x1f 0x90)).2.m_buf.data (sample_batch 10 0 0 1).m_send_cursor,
        be16 (append 8080 (sample_batch 10 0 0 1) sample_payload
          (sample_dest 10 0 0 5 0x1f 0x90)).2.m_buf.data (sample_batch 10 0 0 1).m_send_cursor⟩
      (ptr_at (append 8080 (sample_batch 10 0 0 1) sample_payload
        (sample_dest 10 0 0 5 0x1f 0x90)).2.m_buf.data
        ((sample_batch 10 0 0 1).m_send_cursor + 2))).1.buffer) = sample_payload.flatten :=
  ⟨by decide, by decide, rfl, by decide,
    (append_packet_handler_roundtrip 8080 1000 (sample_batch 10 0 0 1) sample_payload
      (sample_dest 10 0 0 5 0x1f 0x90) (sample_state 4) (by decide) (by decide) rfl
      (by decide)).2.2.2.1⟩

/-! ## C2: the IP header checksum -/

/-- C2 (the code at the failing input): sending the twelve-byte sample payload from
192.168.0.1 to 192.168.0.2 succeeds, the checksum bytes written are `0x35 0x73`,
and the one's-complement sum of the ten header words is 1, not 0xFFFF. -/
theorem append_checksum_drops_carry :
    (append 8080 (sample_batch 192 168 0 1) sample_payload
      (sample_dest 192 168 0 2 0x17 0x70)).1 = true ∧
    read (append 8080 (sample_batch 192 168 0 1) sample_payload
      (sample_dest 192 168 0 2 0x17 0x70)).2.m_buf.data (0 + 2 + 4 + 10) 2 = [0x35, 0x73] ∧
    ones_complement_sum (ip_header_words (append 8080 (sample_batch 192 168 0 1) sample_payload
      (sample_dest 192 168 0 2 0x17 0x70)).2.m_buf.data (0 + 2 + 4)) = 1 ∧
    ones_complement_sum (ip_header_words (append 8080 (sample_batch 192 168 0 1) sample_payload
      (sample_dest 192 168 0 2 0x17 0x70)).2.m_buf.data (0 + 2 + 4)) ≠ 0xFFFF := by
  decide

/-! ## C3: the size boundary of `append` -/

theorem zero_payload_size (n : Nat) : ((zero_payload n).map List.length).sum = n := by
  simp only [zero_payload, List.map_cons, List.map_nil, List.length_replicate, List.sum_cons,
    List.sum_nil, Nat.add_zero]

/-- C3 (as stated, refuted): with the `DLT_NULL` link layer, an IPv4 destination and
an empty 4096-byte batch, `append` of a payload of `1500 - 20 - 8 - 4 = 1468` bytes
returns failure. -/
theorem append_1468_rejected :
    (sample_batch 10 0 0 1).m_link_layer = DLT_NULL ∧
    (sample_dest 10 0 0 5 0x17 0x70).sa_family = AF_INET ∧
    ((zero_payload 1468).map List.length).sum = 1500 - 20 - 8 - 4 ∧
    (sample_batch 10 0 0 1).m_send_cursor + 1500 ≤ (sample_batch 10 0 0 1).m_buf.size ∧
    (append 8080 (sample_batch 10 0 0 1) (zero_payload 1468)
      (sample_dest 10 0 0 5 0x17 0x70)).1 = false := by
  refine ⟨rfl, rfl, zero_payload_size 1468, by decide, ?_⟩
  rw [Bool.eq_false_iff, ne_eq, append_ok_iff, iov_total_eq_sum, zero_payload_size]
  omega

/-- C3 (amended): with the `DLT_NULL` link layer, an IPv4 destination and at least
1500 free bytes in the batch, `append` of a payload whose segments total exactly
`1500 - 28 - 30 = 1442` bytes returns success, and `append` of a payload totalling
1443 bytes returns failure. -/
theorem append_size_boundary (listen_port : Int) (b : packet_buffer)
    (v v' : List (List Byte)) (to_ : sockaddr)
    (hl : b.m_link_layer = DLT_NULL) (hf : to_.sa_family = AF_INET)
    (hroom : b.m_send_cursor + 1500 ≤ b.m_buf.size)
    (hv : (v.map List.length).sum = 1500 - 28 - 30) (hv' : (v'.map List.length).sum = 1443) :
    (append listen_port b v to_).1 = true ∧ (append listen_port b v' to_).1 = false := by
  rw [← iov_total_eq_sum] at hv hv'
  constructor
  · rw [append_ok_iff]
    exact ⟨by omega, by omega, hl, hf⟩
  · rw [Bool.eq_false_iff]
    intro h
    have := ((append_ok_iff listen_port b v' to_).1 h).1
    omega

/-- Witness for `append_size_boundary`: the empty 4096-byte sample batch with payloads
of 1442 and 1443 zero bytes. -/
theorem append_size_boundary_witness :
    (sample_batch 10 0 0 1).m_link_layer = DLT_NULL ∧
    (sample_dest 10 0 0 5 0x17 0x70).sa_family = AF_INET ∧
    (sample_batch 10 0 0 1).m_send_cursor + 1500 ≤ (sample_batch 10 0 0 1).m_buf.size ∧
    ((zero_payload 1442).map List.length).sum = 1500 - 28 - 30 ∧
    ((zero_payload 1443).map List.length).sum = 1443 ∧
    (append 8080 (sample_batch 10 0 0 1) (zero_payload 1442)
      (sample_dest 10 0 0 5 0x17 0x70)).1 = true ∧
    (append 8080 (sample_batch 10 0 0 1) (zero_payload 1443)
      (sample_dest 10 0 0 5 0x17 0x70)).1 = false :=
  ⟨rfl, rfl, by decide, zero_payload_size 1442, zero_payload_size 1443,
    append_size_boundary 8080 (sample_batch 10 0 0 1) (zero_payload 1442) (zero_payload 1443)
      (sample_dest 10 0 0 5 0x17 0x70) rfl rfl (by decide) (zero_payload_size 1442)
      (zero_payload_size 1443)⟩

/-! ## C4: the lengths written by `append` -/

/-- C4: after a successful `append` of a payload of `n` bytes in total, the cursor has
advanced by `n + 34`, the two bytes at the old cursor are the big-endian encoding
of `n + 32`, bytes 2..3 of the IP header that of `n + 28` and bytes 4..5 of the UDP
header that of `n + 8`; for `n = 12` the frame occupies 46 bytes, the IP
total-length bytes are `0x00 0x28` and the UDP length bytes are `0x00 0x14`. -/
theorem append_frame_lengths (listen_port : Int) (b : packet_buffer) (v : List (List Byte))
    (to_ : sockaddr) (n : Nat) (hn : (v.map List.length).sum = n)
    (h : (append listen_port b v to_).1 = true) :
    (append listen_port b v to_).2.m_send_cursor = b.m_send_cursor + (n + 34) ∧
    n + 34 = 2 + 4 + 20 + 8 + n ∧
    read (append listen_port b v to_).2.m_buf.data b.m_send_cursor 2 =
      [u8 ((n + 32) / 256), u8 ((n + 32) % 256)] ∧
    be16 (append listen_port b v to_).2.m_buf.data b.m_send_cursor = n + 32 ∧
    read (append listen_port b v to_).2.m_buf.data (b.m_send_cursor + 2 + 4 + 2) 2 =
      [u8 ((n + 28) / 256), u8 ((n + 28) % 256)] ∧
    be16 (append listen_port b v to_).2.m_buf.data (b.m_send_cursor + 2 + 4 + 2) = n + 28 ∧
    read (append listen_port b v to_).2.m_buf.data (b.m_send_cursor + 2 + 4 + 20 + 4) 2 =
      [u8 ((n + 8) / 256), u8 ((n + 8) % 256)] ∧
    be16 (append listen_port b v to_).2.m_buf.data (b.m_send_cursor + 2 + 4 + 20 + 4) = n + 8 ∧
    (n = 12 →
      (append listen_port b v to_).2.m_send_cursor = b.m_send_cursor + 46 ∧
      read (append listen_port b v to_).2.m_buf.data (b.m_send_cursor + 2 + 4 + 2) 2 =
        [0x00, 0x28] ∧
      read (append listen_port b v to_).2.m_buf.data (b.m_send_cursor + 2 + 4 + 20 + 4) 2 =
        [0x00, 0x14]) := by
  obtain ⟨h1, h2, h3, h4⟩ := (append_ok_iff listen_port b v to_).1 h
  rw [← iov_total_eq_sum] at hn
  subst hn
  have hc := append_ok_cursor listen_port b v to_ h
  obtain ⟨e0, e1⟩ := append_ok_length_bytes listen_port b v to_ h
  obtain ⟨-, -, e2, e3, -⟩ := append_ok_ip listen_port b v to_ h
  obtain ⟨-, -, -, e4, e5, -⟩ := append_ok_udp listen_port b v to_ h
  refine ⟨by omega, by omega, ?_, ?_, ?_, ?_, ?_, ?_, ?_⟩
  · rw [read_two, e0, e1]
  · simp only [be16, e0, e1, u8_val]; omega
  · simp only [read_two, Nat.add_assoc, Nat.reduceAdd, e2, e3]
  · simp only [be16, Nat.add_assoc, Nat.reduceAdd, e2, e3, u8_val]; omega
  · simp only [read_two, Nat.add_assoc, Nat.reduceAdd, e4, e5]
  · simp only [be16, Nat.add_assoc, Nat.reduceAdd, e4, e5, u8_val]; omega
  · intro h12
    refine ⟨by omega, ?_, ?_⟩
    · simp only [read_two, Nat.add_assoc, Nat.reduceAdd, e2, e3, h12]; decide
    · simp only [read_two, Nat.add_assoc, Nat.reduceAdd, e4, e5, h12]; decide

/-- Witness for `append_frame_lengths`: the twelve-byte sample payload sent from
10.0.0.1 to 10.0.0.5:6000 with listen port 8080. -/
theorem append_frame_lengths_witness :
    (sample_payload.map List.length).sum = 12 ∧
    (append 8080 (sample_batch 10 0 0 1) sample_payload
      (sample_dest 10 0 0 5 0x17 0x70)).1 = true ∧
    (append 8080 (sample_batch 10 0 0 1) sample_payload
      (sample_dest 10 0 0 5 0x17 0x70)).2.m_send_cursor =
        (sample_batch 10 0 0 1).m_send_cursor + (12 + 34) ∧
    be16 (append 8080 (sample_batch 10 0 0 1) sample_payload
      (sample_dest 10 0 0 5 0x17 0x70)).2.m_buf.data (sample_batch 10 0 0 1).m_send_cursor =
        12 + 32 :=
  have h := append_frame_lengths 8080 (sample_batch 10 0 0 1) sample_payload
    (sample_dest 10 0 0 5 0x17 0x70) 12 (by decide) (by decide)
  ⟨by decide, by decide, h.1, h.2.2.2.1⟩

/-! ## C5: the header layout written by `append` -/

/-- C5: after a successful `append` the bytes following the 2-byte prefix are the
4-byte link tag holding protocol family 2, an IP header with byte 0 = 0x45, bytes 1
and 4..7 zero, TTL 4, protocol 17, the configured source address in bytes 12..15
and the destination address in bytes 16..19, a UDP header with the listen port
big-endian in bytes 0..1, the destination's port bytes in bytes 2..3 and zero
checksum bytes 6..7, and then the payload segments concatenated in order. -/
theorem append_header_layout (listen_port : Int) (b : packet_buffer) (v : List (List Byte))
    (to_ : sockaddr) (h : (append listen_port b v to_).1 = true) :
    let d := (append listen_port b v to_).2.m_buf.data
    let link := b.m_send_cursor + 2
    let ip := b.m_send_cursor + 2 + 4
    let udp := b.m_send_cursor + 2 + 4 + 20
    read d link 4 = (host_u32 2).bytes ∧ (host_u32 2).bytes = [2, 0, 0, 0] ∧
    d ip = 0x45 ∧ d (ip + 1) = 0 ∧ read d (ip + 4) 4 = [0, 0, 0, 0] ∧
    d (ip + 8) = 4 ∧ d (ip + 9) = 17 ∧
    read d (ip + 12) 4 = b.m_from_ipv4.bytes ∧ read d (ip + 16) 4 = to_.sin_addr.bytes ∧
    read d udp 2 = [u8i (listen_port >>> 8), u8i (Int.land listen_port 0xff)] ∧
    (0 ≤ listen_port → listen_port < 65536 → (be16 d udp : Int) = listen_port) ∧
    read d (udp + 2) 2 = to_.sin_port.bytes ∧ read d (udp + 6) 2 = [0, 0] ∧
    read d (udp + 8) (v.map List.length).sum = v.flatten := by
  intro d link ip udp
  obtain ⟨i0, i1, -, -, i4, i8, i9, i12, i16⟩ := append_ok_ip listen_port b v to_ h
  obtain ⟨u0, u1, u2, -, -, u6⟩ := append_ok_udp listen_port b v to_ h
  have hl := append_ok_link listen_port b v to_ h
  have hp := append_ok_read_payload listen_port b v to_ h
  simp only [d, link, ip, udp, Nat.add_assoc, Nat.reduceAdd]
  refine ⟨hl, by decide, i0, i1, i4, i8, i9, i12, i16, ?_, ?_, u2, u6, ?_⟩
  · rw [read_two, u0, u1]
  · intro h0 h1
    obtain ⟨p, rfl⟩ := Int.eq_ofNat_of_zero_le h0
    have e0 := u8i_shr8 p
    have e1 := u8i_land p
    simp only [be16, u0, u1, e0, e1]
    omega
  · rw [← iov_total_eq_sum]
    exact hp

/-- Witness for `append_header_layout`: the twelve-byte sample payload sent from
10.0.0.1 to 10.0.0.5:6000 with listen port 8080. -/
theorem append_header_layout_witness :
    (append 8080 (sample_batch 10 0 0 1) sample_payload
      (sample_dest 10 0 0 5 0x17 0x70)).1 = true ∧
    read (append 8080 (sample_batch 10 0 0 1) sample_payload
      (sample_dest 10 0 0 5 0x17 0x70)).2.m_buf.data
      ((sample_batch 10 0 0 1).m_send_cursor + 2 + 4 + 20 + 8)
      (sample_payload.map List.length).sum = sample_payload.flatten :=
  ⟨by decide,
    (append_header_layout 8080 (sample_batch 10 0 0 1) sample_payload
      (sample_dest 10 0 0 5 0x17 0x70) (by decide)).2.2.2.2.2.2.2.2.2.2.2.2.2⟩

/-! ## C6: what a rejected `append` leaves behind -/

/-- C6 (as stated, refuted): `append` to a destination of family 30 (not IPv4) on an
empty all-zero batch returns failure, yet the byte at offset 2 of the batch's
buffer has changed from 0 to 2. -/
theorem append_rejected_writes_link_tag :
    (append 8080 (sample_batch 10 0 0 1) sample_payload
      { sample_dest 10 0 0 5 0x17 0x70 with sa_family := 30 }).1 = false ∧
    (sample_batch 10 0 0 1).m_buf.data 2 = 0 ∧
    (append 8080 (sample_batch 10 0 0 1) sample_payload
      { sample_dest 10 0 0 5 0x17 0x70 with sa_family := 30 }).2.m_buf.data 2 = 2 := by
  decide

/-- C6 (amended): a call of `append` that returns failure leaves the cursor and the
size of the batch unchanged and modifies no byte outside the four positions
`[cursor + 2, cursor + 6)`, so in particular none below the cursor; when the
failure is a payload that is too large, a full batch or an unsupported link-layer
type, the batch is left exactly as it was. -/
theorem append_rejected_frame (listen_port : Int) (b : packet_buffer) (v : List (List Byte))
    (to_ : sockaddr) (h : (append listen_port b v to_).1 = false) :
    (append listen_port b v to_).2.m_send_cursor = b.m_send_cursor ∧
    (append listen_port b v to_).2.m_buf.size = b.m_buf.size ∧
    (∀ j, j < b.m_send_cursor + 2 ∨ b.m_send_cursor + 6 ≤ j →
      (append listen_port b v to_).2.m_buf.data j = b.m_buf.data j) ∧
    (iov_total v > 1500 - 28 - 30 ∨ b.m_send_cursor + iov_total v + 28 + 30 > b.m_buf.size ∨
        b.m_link_layer ≠ DLT_NULL →
      (append listen_port b v to_).2 = b) := by
  unfold append at h ⊢
  simp only [] at h ⊢
  split_ifs at h ⊢ with h1 h2 h3 h4
  · simp
  · simp
  · refine ⟨rfl, rfl, ?_, ?_⟩
    · intro j hj
      have hj' : ¬ (b.m_send_cursor + 2 ≤ j ∧ j < b.m_send_cursor + 2 + 4) := by omega
      simp [memcpy_apply, u32_mem.bytes, hj']
    · intro hc
      rcases hc with hc | hc | hc
      · exact absurd hc h1
      · exact absurd hc h2
      · exact absurd h3 hc
  · simp

/-- Witness for `append_rejected_frame`: the non-IPv4 destination on the empty sample
batch. -/
theorem append_rejected_frame_witness :
    (append 8080 (sample_batch 10 0 0 1) sample_payload
      { sample_dest 10 0 0 5 0x17 0x70 with sa_family := 30 }).1 = false ∧
    (append 8080 (sample_batch 10 0 0 1) sample_payload
      { sample_dest 10 0 0 5 0x17 0x70 with sa_family := 30 }).2.m_send_cursor =
      (sample_batch 10 0 0 1).m_send_cursor :=
  ⟨by decide,
    (append_rejected_frame 8080 (sample_batch 10 0 0 1) sample_payload
      { sample_dest 10 0 0 5 0x17 0x70 with sa_family := 30 } (by decide)).1⟩

/-! ## C7 and C8: `packet_socket::send` -/

/-- C7: when a non-empty batch does not fit behind the channel cursor in the active
send buffer, `send` returns false, leaves the socket (both send buffers, the
channel cursor and the active index) unchanged and resets the caller's batch
cursor to 0. -/
theorem send_overflow (s : packet_socket) (packets : packet_buffer)
    (hne : packets.m_send_cursor ≠ 0)
    (hbig : s.m_send_cursor + packets.m_send_cursor > (s.m_send_buffer s.m_buffer_idx).size) :
    (send s packets).1 = false ∧
    (send s packets).2.1 = s ∧
    (send s packets).2.1.m_send_buffer 0 = s.m_send_buffer 0 ∧
    (send s packets).2.1.m_send_buffer 1 = s.m_send_buffer 1 ∧
    (send s packets).2.1.m_send_cursor = s.m_send_cursor ∧
    (send s packets).2.1.m_buffer_idx = s.m_buffer_idx ∧
    (send s packets).2.2.m_send_cursor = 0 := by
  unfold send
  rw [if_neg hne, if_pos hbig]
  exact ⟨rfl, rfl, rfl, rfl, rfl, rfl, rfl⟩

/-- C8: when the batch's `k` pending bytes fit behind the channel cursor `c` in the
active send buffer, `send` returns true, the active buffer afterwards holds the
batch's first `k` bytes at positions `[c, c + k)` and its old contents everywhere
else, the other buffer, the sizes and the active index are unchanged, the channel
cursor becomes `c + k` and the caller's batch cursor becomes 0; when `k = 0` the
socket is unchanged. -/
theorem send_hand_off (s : packet_socket) (packets : packet_buffer)
    (hfit : s.m_send_cursor + packets.m_send_cursor ≤ (s.m_send_buffer s.m_buffer_idx).size) :
    (send s packets).1 = true ∧
    (∀ j, ((send s packets).2.1.m_send_buffer s.m_buffer_idx).data j =
      if s.m_send_cursor ≤ j ∧ j < s.m_send_cursor + packets.m_send_cursor then
        packets.m_buf.data (j - s.m_send_cursor)
      else (s.m_send_buffer s.m_buffer_idx).data j) ∧
    read ((send s packets).2.1.m_send_buffer s.m_buffer_idx).data s.m_send_cursor
      packets.m_send_cursor = read packets.m_buf.data 0 packets.m_send_cursor ∧
    ((send s packets).2.1.m_send_buffer s.m_buffer_idx).size =
      (s.m_send_buffer s.m_buffer_idx).size ∧
    (∀ i, i ≠ s.m_buffer_idx → (send s packets).2.1.m_send_buffer i = s.m_send_buffer i) ∧
    (send s packets).2.1.m_buffer_idx = s.m_buffer_idx ∧
    (send s packets).2.1.m_send_cursor = s.m_send_cursor + packets.m_send_cursor ∧
    (send s packets).2.2.m_send_cursor = 0 ∧
    (packets.m_send_cursor = 0 → (send s packets).2.1 = s) := by
  unfold send
  by_cases h0 : packets.m_send_cursor = 0
  · rw [if_pos h0]
    refine ⟨rfl, ?_, ?_, rfl, fun _ _ => rfl, rfl, by simp [h0], h0, fun _ => rfl⟩
    · intro j
      rw [if_neg (by omega)]
    · simp [h0, read]
  · rw [if_neg h0, if_neg (by omega)]
    refine ⟨rfl, ?_, ?_, ?_, ?_, rfl, rfl, rfl, fun h => absurd h h0⟩
    · intro j
      simp [memcpy_from]
    · apply List.ext_getElem
      · simp [read]
      · intro i h1 h2
        have hi : i < packets.m_send_cursor := by simpa [read] using h1
        simp [read, memcpy_from, hi]
    · simp
    · intro i hi
      simp [hi]

/-- Witness for `send_overflow`: a 46-byte batch handed to a socket whose active
buffer has 40 bytes. -/
theorem send_overflow_witness :
    (send ⟨0, ⟨10, 0, 0, 1⟩, DLT_NULL, fun _ => ⟨40, zero_mem⟩, 0, 0, 0⟩
      (append 8080 (sample_batch 10 0 0 1) sample_payload
        (sample_dest 10 0 0 5 0x17 0x70)).2).1 = false ∧
    (send ⟨0, ⟨10, 0, 0, 1⟩, DLT_NULL, fun _ => ⟨40, zero_mem⟩, 0, 0, 0⟩
      (append 8080 (sample_batch 10 0 0 1) sample_payload
        (sample_dest 10 0 0 5 0x17 0x70)).2).2.2.m_send_cursor = 0 :=
  have h := send_overflow ⟨0, ⟨10, 0, 0, 1⟩, DLT_NULL, fun _ => ⟨40, zero_mem⟩, 0, 0, 0⟩
    (append 8080 (sample_batch 10 0 0 1) sample_payload (sample_dest 10 0 0 5 0x17 0x70)).2
    (by decide) (by decide)
  ⟨h.1, h.2.2.2.2.2.2⟩

/-- Witness for `send_hand_off`: a 46-byte batch handed to a socket whose active
buffer has 4096 bytes and 10 bytes pending. -/
theorem send_hand_off_witness :
    (send ⟨0, ⟨10, 0, 0, 1⟩, DLT_NULL, fun _ => ⟨4096, zero_mem⟩, 10, 0, 0⟩
      (append 8080 (sample_batch 10 0 0 1) sample_payload
        (sample_dest 10 0 0 5 0x17 0x70)).2).1 = true ∧
    (send ⟨0, ⟨10, 0, 0, 1⟩, DLT_NULL, fun _ => ⟨4096, zero_mem⟩, 10, 0, 0⟩
      (append 8080 (sample_batch 10 0 0 1) sample_payload
        (sample_dest 10 0 0 5 0x17 0x70)).2).2.1.m_send_cursor = 10 + 46 :=
  have h := send_hand_off ⟨0, ⟨10, 0, 0, 1⟩, DLT_NULL, fun _ => ⟨4096, zero_mem⟩, 10, 0, 0⟩
    (append 8080 (sample_batch 10 0 0 1) sample_payload (sample_dest 10 0 0 5 0x17 0x70)).2
    (by decide)
  ⟨h.1, h.2.2.2.2.2.2.1⟩

/-! ## C9: the filter of `packet_handler` -/

/-- C9: a frame whose IP header has the more-fragments flag set, or a non-zero
13-bit fragment offset, or a version/IHL byte other than 0x45, or a protocol byte
other than 17, or whose UDP destination port differs from the listen port, leaves
the receive state as it was: descriptor count, descriptor array, arena and arena
offset are unchanged. -/
theorem packet_handler_filter (listen_port receive_buffer_size : Int) (st : receive_state)
    (h : pcap_pkthdr) (bytes : Int → Byte)
    (hbad :
      (bytes (st.link_header_size + 6)).val &&& 0x20 ≠ 0 ∨
      (256 * (bytes (st.link_header_size + 6)).val + (bytes (st.link_header_size + 7)).val)
        % 8192 ≠ 0 ∨
      bytes st.link_header_size ≠ 0x45 ∨
      bytes (st.link_header_size + 9) ≠ 17 ∨
      ((256 * (bytes (st.link_header_size + 20 + 2)).val +
        (bytes (st.link_header_size + 20 + 3)).val : Nat) : Int) ≠ listen_port) :
    (packet_handler listen_port receive_buffer_size st h bytes).1 = st ∧
    (packet_handler listen_port receive_buffer_size st h bytes).1.current = st.current ∧
    (packet_handler listen_port receive_buffer_size st h bytes).1.pkts = st.pkts ∧
    (packet_handler listen_port receive_buffer_size st h bytes).1.buffer_offset =
      st.buffer_offset := by
  have key : (packet_handler listen_port receive_buffer_size st h bytes).1 = st := by
    have b7 := (bytes (st.link_header_size + 7)).isLt
    have e6 := shl8_or (bytes (st.link_header_size + 20 + 2)).val
      (bytes (st.link_header_size + 20 + 3)).val (bytes (st.link_header_size + 20 + 3)).isLt
    have e4 := and_1f (bytes (st.link_header_size + 6)).val
    unfold packet_handler
    by_cases h1 : st.current ≥ st.len
    · rw [if_pos h1]
    rw [if_neg h1]
    dsimp only
    rw [Int.add_zero]
    by_cases h2 : (bytes st.link_header_size).val ≠ 0x45
    · rw [if_pos h2]
    rw [if_neg h2]
    by_cases h3 : (bytes (st.link_header_size + 6)).val &&& 0x20 ≠ 0
    · rw [if_pos h3]
    rw [if_neg h3]
    by_cases h4 : (bytes (st.link_header_size + 6)).val &&& 0x1f ≠ 0 ∨
        (bytes (st.link_header_size + 7)).val ≠ 0
    · rw [if_pos h4]
    rw [if_neg h4]
    by_cases h5 : (bytes (st.link_header_size + 9)).val ≠ 0x11
    · rw [if_pos h5]
    rw [if_neg h5]
    by_cases h6 : ((((bytes (st.link_header_size + 20 + 2)).val <<< 8) |||
        (bytes (st.link_header_size + 20 + 3)).val : Nat) : Int) ≠ listen_port
    · rw [if_pos h6]
    exfalso
    rw [e6] at h6
    rw [e4] at h4
    rcases hbad with hb | hb | hb | hb | hb
    · exact h3 hb
    · apply hb
      have e1 : (bytes (st.link_header_size + 6)).val % 32 = 0 := by omega
      have e2 : (bytes (st.link_header_size + 7)).val = 0 := by omega
      omega
    · exact hb (Fin.ext (by simpa using h2))
    · exact hb (Fin.ext (by simpa using h5))
    · exact h6 hb
  rw [key]
  exact ⟨rfl, rfl, rfl, rfl⟩

/-- Witness for `packet_handler_filter`: a frame with the more-fragments flag set. -/
theorem packet_handler_filter_witness :
    (sample_frame_bytes 0x20 ((sample_state 4).link_header_size + 6)).val &&& 0x20 ≠ 0 ∧
    (packet_handler 8080 1000 (sample_state 4) ⟨44, 44⟩ (sample_frame_bytes 0x20)).1.current =
      (sample_state 4).current :=
  ⟨by decide,
    (packet_handler_filter 8080 1000 (sample_state 4) ⟨44, 44⟩ (sample_frame_bytes 0x20)
      (Or.inl (by decide))).2.1⟩

/-! ## Facts about length-prefixed frames -/

theorem read_length (m : Nat → Byte) (off n : Nat) : (read m off n).length = n := by
  simp [read]

theorem read_congr (m m' : Nat → Byte) (off n : Nat)
    (h : ∀ j, off ≤ j → j < off + n → m j = m' j) : read m off n = read m' off n := by
  apply List.ext_getElem
  · simp [read]
  · intro i h1 _
    have hi : i < n := by simpa [read] using h1
    simp only [read, List.getElem_map, List.getElem_range]
    exact h _ (by omega) (by omega)

theorem framed_le (buf : Nat → Byte) (fs : List (List Byte)) :
    ∀ (i e : Nat), framed buf i fs e → i + 2 * fs.length ≤ e := by
  induction fs with
  | nil =>
    intro i e h
    simp only [framed] at h
    simp [h]
  | cons f rest ih =>
    intro i e h
    obtain ⟨_, _, h3⟩ := h
    have := ih _ _ h3
    simp only [List.length_cons]
    omega

theorem framed_congr (buf buf' : Nat → Byte) (fs : List (List Byte)) :
    ∀ (i e : Nat), (∀ j, i ≤ j → j < e → buf j = buf' j) → framed buf i fs e →
      framed buf' i fs e := by
  induction fs with
  | nil => intro i e _ h; exact h
  | cons f rest ih =>
    intro i e hb h
    obtain ⟨h1, h2, h3⟩ := h
    have hle := framed_le buf rest _ _ h3
    refine ⟨?_, ?_, ih _ _ (fun j hj hj' => hb j (by omega) hj') h3⟩
    · simp only [be16] at h1 ⊢
      rw [← hb i (by omega) (by omega), ← hb (i + 1) (by omega) (by omega)]
      exact h1
    · rw [← read_congr buf buf' (i + 2) f.length (fun j hj hj' => hb j (by omega) (by omega))]
      exact h2

theorem framed_append (buf : Nat → Byte) (fs gs : List (List Byte)) (e e' : Nat) :
    ∀ (i : Nat), framed buf i fs e → framed buf e gs e' → framed buf i (fs ++ gs) e' := by
  induction fs with
  | nil =>
    intro i h hg
    simp only [framed] at h
    subst h
    exact hg
  | cons f rest ih =>
    intro i h hg
    obtain ⟨h1, h2, h3⟩ := h
    exact ⟨h1, h2, ih _ h3 hg⟩

theorem framed_shift (src dst : Nat → Byte) (c : Nat) (gs : List (List Byte)) :
    ∀ (i e : Nat), (∀ j, i ≤ j → j < e → dst (c + j) = src j) → framed src i gs e →
      framed dst (c + i) gs (c + e) := by
  induction gs with
  | nil =>
    intro i e _ h
    simp only [framed] at h ⊢
    omega
  | cons f rest ih =>
    intro i e hb h
    obtain ⟨h1, h2, h3⟩ := h
    have hle := framed_le src rest _ _ h3
    refine ⟨?_, ?_, ?_⟩
    · simp only [be16] at h1 ⊢
      rw [hb i (by omega) (by omega), show c + i + 1 = c + (i + 1) from by omega,
        hb (i + 1) (by omega) (by omega)]
      exact h1
    · rw [← h2]
      apply List.ext_getElem
      · simp [read]
      · intro k hk _
        have hk' : k < f.length := by simpa [read] using hk
        simp only [read, List.getElem_map, List.getElem_range]
        rw [show c + i + 2 + k = c + (i + 2 + k) from by omega]
        exact hb _ (by omega) (by omega)
    · have := ih (i + 2 + f.length) e (fun j hj hj' => hb j (by omega) hj') h3
      rw [show c + i + 2 + f.length = c + (i + 2 + f.length) from by omega]
      exact this

/-- On a buffer holding the frames `fs` from `i` to `e`, the transmit loop makes one
`pcap_sendpacket` call per frame, hands over exactly the frames, and stops with
its index equal to `e`. -/
theorem send_thread_loop_framed (buf : Nat → Byte) (fs : List (List Byte)) (e : Nat) :
    ∀ (rounds i : Nat), fs.length ≤ rounds → framed buf i fs e →
      ((send_thread_loop buf e rounds i).1.map (sendpacket_call.bytes buf) = fs ∧
        (send_thread_loop buf e rounds i).1.map sendpacket_call.len = fs.map List.length ∧
        (send_thread_loop buf e rounds i).2 = e ∧
        (∀ c ∈ (send_thread_loop buf e rounds i).1, i + 2 ≤ c.i ∧ c.i + c.len ≤ e) ∧
        (send_thread_loop buf e rounds i).1.Pairwise (fun a b => a.i + a.len < b.i)) := by
  induction fs with
  | nil =>
    intro rounds i _ h
    simp only [framed] at h
    subst h
    cases rounds <;> simp [send_thread_loop]
  | cons f rest ih =>
    intro rounds i hr h
    obtain ⟨h1, h2, h3⟩ := h
    obtain ⟨rounds, rfl⟩ : ∃ r, rounds = r + 1 := ⟨rounds - 1, by
      simp only [List.length_cons] at hr; omega⟩
    have hle := framed_le buf rest _ _ h3
    have hlen : ((buf i).val <<< 8) ||| (buf (i + 1)).val = f.length := by
      rw [shl8_or _ _ (buf (i + 1)).isLt]
      exact h1
    obtain ⟨r1, r2, r3, r4, r5⟩ := ih rounds (i + 2 + f.length)
      (by simp only [List.length_cons] at hr; omega) h3
    have step : send_thread_loop buf e (rounds + 1) i =
        (⟨i + 2, f.length⟩ :: (send_thread_loop buf e rounds (i + 2 + f.length)).1,
          (send_thread_loop buf e rounds (i + 2 + f.length)).2) := by
      simp only [send_thread_loop]
      rw [if_pos (by omega)]
      simp only [hlen]
    rw [step]
    refine ⟨?_, ?_, r3, ?_, ?_⟩
    · simp only [List.map_cons, r1, sendpacket_call.bytes, h2]
    · simp only [List.map_cons, r2]
    · intro c hc
      rcases List.mem_cons.1 hc with hc | hc
      · subst hc
        exact ⟨Nat.le_refl _, show i + 2 + f.length ≤ e from by omega⟩
      · have := r4 c hc
        exact ⟨by omega, this.2⟩
    · refine List.Pairwise.cons ?_ r5
      intro c hc
      have := (r4 c hc).1
      show i + 2 + f.length < c.i
      omega

/-! ## Invariants of the batch and of the channel -/

theorem append_below_cursor (listen_port : Int) (b : packet_buffer) (v : List (List Byte))
    (to_ : sockaddr) (j : Nat) (hj : j < b.m_send_cursor) :
    (append listen_port b v to_).2.m_buf.data j = b.m_buf.data j := by
  cases h : (append listen_port b v to_).1 with
  | true => exact append_ok_outside listen_port b v to_ h j (Or.inl hj)
  | false =>
    unfold append at h ⊢
    simp only [] at h ⊢
    split_ifs at h ⊢ with h1 h2 h3 h4
    · rfl
    · rfl
    · have hj' : ¬ (b.m_send_cursor + 2 ≤ j ∧ j < b.m_send_cursor + 2 + 4) := by omega
      simp [memcpy_apply, u32_mem.bytes, hj']
    · rfl

theorem append_size (listen_port : Int) (b : packet_buffer) (v : List (List Byte))
    (to_ : sockaddr) : (append listen_port b v to_).2.m_buf.size = b.m_buf.size := by
  unfold append
  simp only []
  split_ifs <;> rfl

theorem append_fail_cursor (listen_port : Int) (b : packet_buffer) (v : List (List Byte))
    (to_ : sockaddr) (h : (append listen_port b v to_).1 = false) :
    (append listen_port b v to_).2.m_send_cursor = b.m_send_cursor := by
  unfold append at h ⊢
  simp only [] at h ⊢
  split_ifs at h ⊢ <;> rfl

theorem append_ok_framed (listen_port : Int) (b : packet_buffer) (v : List (List Byte))
    (to_ : sockaddr) (h : (append listen_port b v to_).1 = true) (fs : List (List Byte))
    (hf : framed b.m_buf.data 0 fs b.m_send_cursor) :
    framed (append listen_port b v to_).2.m_buf.data 0
      (fs ++ [read (append listen_port b v to_).2.m_buf.data (b.m_send_cursor + 2)
        ((append listen_port b v to_).2.m_send_cursor - (b.m_send_cursor + 2))])
      (append listen_port b v to_).2.m_send_cursor := by
  obtain ⟨h1, h2, h3, h4⟩ := (append_ok_iff listen_port b v to_).1 h
  obtain ⟨e0, e1⟩ := append_ok_length_bytes listen_port b v to_ h
  have hc := append_ok_cursor listen_port b v to_ h
  have hlen : (append listen_port b v to_).2.m_send_cursor - (b.m_send_cursor + 2) =
      iov_total v + 32 := by omega
  refine framed_append _ _ _ b.m_send_cursor _ 0
    (framed_congr _ _ fs 0 _ (fun j _ hj => (append_below_cursor listen_port b v to_ j hj).symm)
      hf) ?_
  rw [hlen]
  refine ⟨?_, ?_, ?_⟩
  · simp only [be16, e0, e1, u8_val, read_length]; omega
  · rw [read_length]
  · simp only [framed, read_length]
    omega

theorem append_seq_inv (listen_port : Int) (calls : List append_call) :
    ∀ (b : packet_buffer) (fs : List (List Byte)),
      b.m_send_cursor ≤ b.m_buf.size → framed b.m_buf.data 0 fs b.m_send_cursor →
      (append_seq listen_port b calls).1.m_send_cursor ≤
        (append_seq listen_port b calls).1.m_buf.size ∧
      (append_seq listen_port b calls).1.m_buf.size = b.m_buf.size ∧
      framed (append_seq listen_port b calls).1.m_buf.data 0
        (fs ++ (append_seq listen_port b calls).2.1)
        (append_seq listen_port b calls).1.m_send_cursor ∧
      (∀ f ∈ (append_seq listen_port b calls).2.1, 32 ≤ f.length ∧ f.length ≤ 1474) ∧
      ((append_seq listen_port b calls).2.2 = true →
        (append_seq listen_port b calls).2.1.length = calls.length) := by
  induction calls with
  | nil =>
    intro b fs hb hf
    simp only [append_seq, List.append_nil]
    refine ⟨hb, ?_, hf, ?_, ?_⟩ <;> simp
  | cons c rest ih =>
    intro b fs hb hf
    have hs := append_size listen_port b c.v c.to_
    cases h : (append listen_port b c.v c.to_).1 with
    | false =>
      have hc := append_fail_cursor listen_port b c.v c.to_ h
      have hf' : framed (append listen_port b c.v c.to_).2.m_buf.data 0 fs
          (append listen_port b c.v c.to_).2.m_send_cursor := by
        rw [hc]
        exact framed_congr _ _ fs 0 _
          (fun j _ hj => (append_below_cursor listen_port b c.v c.to_ j hj).symm) hf
      obtain ⟨i1, i2, i3, i4, _⟩ := ih (append listen_port b c.v c.to_).2 fs
        (by rw [hc, hs]; exact hb) hf'
      simp only [append_seq, h, Bool.false_eq_true, if_false]
      exact ⟨i1, by rw [i2, hs], i3, i4, fun hh => absurd hh (by simp)⟩
    | true =>
      obtain ⟨h1, h2, h3, h4⟩ := (append_ok_iff listen_port b c.v c.to_).1 h
      have hc := append_ok_cursor listen_port b c.v c.to_ h
      have hf' := append_ok_framed listen_port b c.v c.to_ h fs hf
      obtain ⟨i1, i2, i3, i4, i5⟩ := ih (append listen_port b c.v c.to_).2 _
        (by rw [hc, hs]; omega) hf'
      simp only [append_seq, h, if_true]
      refine ⟨i1, by rw [i2, hs], ?_, ?_, ?_⟩
      · rw [List.append_assoc] at i3
        exact i3
      · intro f hf
        rcases List.mem_cons.1 hf with hf | hf
        · subst hf
          rw [read_length]
          omega
        · exact i4 f hf
      · intro hh
        simp only [List.length_cons, i5 hh]

theorem send_inv (s : packet_socket) (packets : packet_buffer) (fs gs : List (List Byte))
    (hs : s.m_send_cursor ≤ (s.m_send_buffer s.m_buffer_idx).size)
    (hf : framed (s.m_send_buffer s.m_buffer_idx).data 0 fs s.m_send_cursor)
    (hg : framed packets.m_buf.data 0 gs packets.m_send_cursor) :
    (send s packets).2.1.m_buffer_idx = s.m_buffer_idx ∧
    (∀ i, ((send s packets).2.1.m_send_buffer i).size = (s.m_send_buffer i).size) ∧
    (send s packets).2.1.m_send_cursor ≤ (s.m_send_buffer s.m_buffer_idx).size ∧
    framed ((send s packets).2.1.m_send_buffer s.m_buffer_idx).data 0
      (if (send s packets).1 then fs ++ gs else fs) (send s packets).2.1.m_send_cursor := by
  have hgl := framed_le _ _ _ _ hg
  unfold send
  by_cases h0 : packets.m_send_cursor = 0
  · have hnil : gs = [] := by
      cases gs with
      | nil => rfl
      | cons f rest => simp only [List.length_cons] at hgl; omega
    subst hnil
    rw [if_pos h0]
    simp only [if_true, List.append_nil]
    refine ⟨?_, ?_, hs, hf⟩ <;> simp
  · rw [if_neg h0]
    by_cases h1 : s.m_send_cursor + packets.m_send_cursor >
        (s.m_send_buffer s.m_buffer_idx).size
    · rw [if_pos h1]
      simp only [Bool.false_eq_true, if_false]
      refine ⟨?_, ?_, hs, hf⟩ <;> simp
    · rw [if_neg h1]
      simp only [if_true]
      refine ⟨trivial, ?_, by omega, ?_⟩
      · intro i
        by_cases hi : i = s.m_buffer_idx
        · simp [hi]
        · simp [hi]
      · refine framed_append _ _ _ s.m_send_cursor _ 0 ?_ ?_
        · refine framed_congr _ _ fs 0 _ (fun j _ hj => ?_) hf
          simp only [if_true, memcpy_from]
          rw [if_neg (by omega)]
        · have := framed_shift packets.m_buf.data
            (memcpy_from (s.m_send_buffer s.m_buffer_idx).data s.m_send_cursor
              packets.m_buf.data packets.m_send_cursor) s.m_send_cursor gs 0
            packets.m_send_cursor
            (fun j _ hj => by simp [memcpy_from, hj]) hg
          simpa using this

theorem hand_over_inv (listen_port : Int) (script : List (packet_buffer × List append_call)) :
    ∀ (s : packet_socket) (fs : List (List Byte)),
      (∀ bc ∈ script, bc.1.m_send_cursor = 0) →
      s.m_send_cursor ≤ (s.m_send_buffer s.m_buffer_idx).size →
      framed (s.m_send_buffer s.m_buffer_idx).data 0 fs s.m_send_cursor →
      (hand_over listen_port s script).1.m_buffer_idx = s.m_buffer_idx ∧
      (∀ i, ((hand_over listen_port s script).1.m_send_buffer i).size =
        (s.m_send_buffer i).size) ∧
      (hand_over listen_port s script).1.m_send_cursor ≤
        (s.m_send_buffer s.m_buffer_idx).size ∧
      framed ((hand_over listen_port s script).1.m_send_buffer s.m_buffer_idx).data 0
        (fs ++ (hand_over listen_port s script).2.1)
        (hand_over listen_port s script).1.m_send_cursor ∧
      (∀ f ∈ (hand_over listen_port s script).2.1, 32 ≤ f.length ∧ f.length ≤ 1474) ∧
      ((hand_over listen_port s script).2.2 = true →
        (hand_over listen_port s script).2.1.length =
          (script.map fun bc => bc.2.length).sum) := by
  induction script with
  | nil =>
    intro s fs _ hs hf
    simp only [hand_over, List.append_nil]
    refine ⟨?_, ?_, hs, hf, ?_, ?_⟩ <;> simp
  | cons bc rest ih =>
    intro s fs hb hs hf
    have hb0 := hb bc (List.mem_cons_self _ _)
    obtain ⟨a1, a2, a3, a4, a5⟩ := append_seq_inv listen_port bc.2 bc.1 []
      (by rw [hb0]; exact Nat.zero_le _) (by rw [hb0]; rfl)
    rw [List.nil_append] at a3
    obtain ⟨s1, s2, s3, s4⟩ := send_inv s (append_seq listen_port bc.1 bc.2).1 fs
      (append_seq listen_port bc.1 bc.2).2.1 hs hf a3
    obtain ⟨i1, i2, i3, i4, i5, i6⟩ := ih (send s (append_seq listen_port bc.1 bc.2).1).2.1 _
      (fun x hx => hb x (List.mem_cons_of_mem _ hx))
      (by rw [s1, s2]; exact s3) (by rw [s1]; exact s4)
    rw [s1] at i1 i3 i4
    cases hsend : (send s (append_seq listen_port bc.1 bc.2).1).1 with
    | false =>
      rw [hsend] at i4
      simp only [Bool.false_eq_true, if_false] at i4
      simp only [hand_over, hsend, Bool.false_eq_true, if_false]
      exact ⟨i1, fun i => by rw [i2, s2], by rw [← s2]; exact i3, i4, i5,
        fun hh => absurd hh (by simp)⟩
    | true =>
      rw [hsend] at i4
      simp only [if_true, List.append_assoc] at i4
      simp only [hand_over, hsend, if_true]
      refine ⟨i1, fun i => by rw [i2, s2], by rw [← s2]; exact i3, i4, ?_, ?_⟩
      · intro f hf
        rcases List.mem_append.1 hf with hf | hf
        · exact a4 f hf
        · exact i5 f hf
      · intro hh
        simp only [Bool.and_eq_true] at hh
        simp only [List.length_append, List.map_cons, List.sum_cons, a5 hh.1, i6 hh.2]

/-! ## The two ways `packet_handler` can end -/

theorem packet_handler_full (listen_port receive_buffer_size : Int) (st : receive_state)
    (h : pcap_pkthdr) (bytes : Int → Byte) (hfull : st.current ≥ st.len) :
    packet_handler listen_port receive_buffer_size st h bytes = (st, true) := by
  unfold packet_handler
  rw [if_pos hfull]

/-- A call of `packet_handler` either leaves the state as it was, or the descriptor
array was not full, the payload length is at most 1500 and one descriptor was
recorded. -/
theorem packet_handler_cases (listen_port receive_buffer_size : Int) (st : receive_state)
    (h : pcap_pkthdr) (bytes : Int → Byte) :
    (packet_handler listen_port receive_buffer_size st h bytes).1 = st ∨
    (st.current < st.len ∧
      to_int32 ((h.caplen : Int) - 28 - st.link_header_size) ≤ 1500 ∧
      (packet_handler listen_port receive_buffer_size st h bytes).1 =
        { st with
          buffer := memcpy_at st.buffer (8 * st.buffer_offset) bytes (28 + st.link_header_size)
            (to_int32 ((h.caplen : Int) - 28 - st.link_header_size))
          pkts := fun i =>
            if i = st.current then
              { buffer := st.buffer_offset
                buflen := to_int32 ((h.caplen : Int) - 28 - st.link_header_size)
                from_ :=
                  { sa_len := sizeof_sockaddr_in
                    sa_family := AF_INET
                    sin_port := ⟨bytes (st.link_header_size + 20 + 0),
                      bytes (st.link_header_size + 20 + 1)⟩
                    sin_addr := ⟨bytes (st.link_header_size + 12),
                      bytes (st.link_header_size + 13), bytes (st.link_header_size + 14),
                      bytes (st.link_header_size + 15)⟩ }
                fromlen := sizeof_sockaddr_in }
            else st.pkts i
          buffer_offset := st.buffer_offset +
            (to_int32 ((h.caplen : Int) - 28 - st.link_header_size) + 7).tdiv 8
          current := st.current + 1 }) := by
  unfold packet_handler
  by_cases h1 : st.current ≥ st.len
  · rw [if_pos h1]
    exact Or.inl rfl
  rw [if_neg h1]
  dsimp only
  rw [Int.add_zero]
  by_cases h2 : (bytes st.link_header_size).val ≠ 0x45
  · rw [if_pos h2]
    exact Or.inl rfl
  rw [if_neg h2]
  by_cases h3 : (bytes (st.link_header_size + 6)).val &&& 0x20 ≠ 0
  · rw [if_pos h3]
    exact Or.inl rfl
  rw [if_neg h3]
  by_cases h4 : (bytes (st.link_header_size + 6)).val &&& 0x1f ≠ 0 ∨
      (bytes (st.link_header_size + 7)).val ≠ 0
  · rw [if_pos h4]
    exact Or.inl rfl
  rw [if_neg h4]
  by_cases h5 : (bytes (st.link_header_size + 9)).val ≠ 0x11
  · rw [if_pos h5]
    exact Or.inl rfl
  rw [if_neg h5]
  by_cases h6 : ((((bytes (st.link_header_size + 20 + 2)).val <<< 8) |||
      (bytes (st.link_header_size + 20 + 3)).val : Nat) : Int) ≠ listen_port
  · rw [if_pos h6]
    exact Or.inl rfl
  rw [if_neg h6]
  by_cases h7 : to_int32 ((h.caplen : Int) - 28 - st.link_header_size) > 1500
  · rw [if_pos h7]
    exact Or.inl rfl
  rw [if_neg h7]
  refine Or.inr ⟨by omega, by omega, ?_⟩
  split_ifs <;> rfl

/-- The invariant of the descriptor count during a `receive` call for `num`
descriptors. -/
theorem packet_handler_count (listen_port receive_buffer_size : Int) (st : receive_state)
    (h : pcap_pkthdr) (bytes : Int → Byte) (num : Int)
    (hinv : st.len = num ∧ 0 ≤ st.current ∧ (st.current = 0 ∨ st.current ≤ num)) :
    (packet_handler listen_port receive_buffer_size st h bytes).1.len = num ∧
    0 ≤ (packet_handler listen_port receive_buffer_size st h bytes).1.current ∧
    ((packet_handler listen_port receive_buffer_size st h bytes).1.current = 0 ∨
      (packet_handler listen_port receive_buffer_size st h bytes).1.current ≤ num) := by
  rcases packet_handler_cases listen_port receive_buffer_size st h bytes with hc | ⟨h1, _, hc⟩
  · rw [hc]
    exact hinv
  · rw [hc]
    exact ⟨hinv.1, by show 0 ≤ st.current + 1; omega,
      Or.inr (by show st.current + 1 ≤ num; omega)⟩

theorem dispatch_loop_count (listen_port receive_buffer_size num : Int) (frames : List frame) :
    ∀ (cnt : Nat) (st : receive_state),
      (st.len = num ∧ 0 ≤ st.current ∧ (st.current = 0 ∨ st.current ≤ num)) →
      ((dispatch_loop listen_port receive_buffer_size cnt frames st).len = num ∧
        0 ≤ (dispatch_loop listen_port receive_buffer_size cnt frames st).current ∧
        ((dispatch_loop listen_port receive_buffer_size cnt frames st).current = 0 ∨
          (dispatch_loop listen_port receive_buffer_size cnt frames st).current ≤ num)) := by
  induction frames with
  | nil =>
    intro cnt st hinv
    cases cnt <;> exact hinv
  | cons f rest ih =>
    intro cnt st hinv
    cases cnt with
    | zero => exact hinv
    | succ cnt =>
      have hh := packet_handler_count listen_port receive_buffer_size st f.h f.bytes num hinv
      simp only [dispatch_loop]
      split_ifs
      · exact hh
      · exact ih cnt _ hh

theorem pcap_dispatch_count (listen_port receive_buffer_size num cnt : Int)
    (frames : List frame) (st : receive_state)
    (hinv : st.len = num ∧ 0 ≤ st.current ∧ (st.current = 0 ∨ st.current ≤ num)) :
    (pcap_dispatch listen_port receive_buffer_size cnt frames st).len = num ∧
    0 ≤ (pcap_dispatch listen_port receive_buffer_size cnt frames st).current ∧
    ((pcap_dispatch listen_port receive_buffer_size cnt frames st).current = 0 ∨
      (pcap_dispatch listen_port receive_buffer_size cnt frames st).current ≤ num) :=
  dispatch_loop_count listen_port receive_buffer_size num frames _ st hinv

theorem receive_loop_count (listen_port receive_buffer_size : Int) (m_closed : Nat)
    (num : Int) (rounds : List dispatch_round) :
    ∀ (st : receive_state) (n : Nat) (r : Int),
      (st.len = num ∧ 0 ≤ st.current ∧ (st.current = 0 ∨ st.current ≤ num)) →
      (receive_loop listen_port receive_buffer_size m_closed num rounds st n).outcome =
        .returned r →
      r = -1 ∨ (0 < r ∧ r ≤ num) := by
  induction rounds with
  | nil =>
    intro st n r _ h
    simp only [receive_loop] at h
    split_ifs at h
    · simp only [receive_outcome.returned.injEq] at h
      exact Or.inl h.symm
  | cons rd rest ih =>
    intro st n r hinv h
    have hd := pcap_dispatch_count listen_port receive_buffer_size num (num - st.current)
      rd.frames st hinv
    simp only [receive_loop] at h
    split_ifs at h with h1 h2 h3 h4
    · simp only [receive_outcome.returned.injEq] at h
      exact Or.inl h.symm
    · simp only [receive_outcome.returned.injEq] at h
      exact Or.inl h.symm
    · simp only [receive_outcome.returned.injEq] at h
      rw [← h]
      right
      omega
    · exact ih _ _ r hd h

/-! ## C10: the arena bound -/

/-- A call of `packet_handler` either leaves the state as it was, or it records one
descriptor, moves the arena offset by the rounded payload length and, unless it
requests the stop, leaves `1500/8` words free in the arena. -/
theorem packet_handler_stop (listen_port receive_buffer_size : Int) (st : receive_state)
    (h : pcap_pkthdr) (bytes : Int → Byte) :
    (packet_handler listen_port receive_buffer_size st h bytes).1 = st ∨
    (to_int32 ((h.caplen : Int) - 28 - st.link_header_size) ≤ 1500 ∧
      (packet_handler listen_port receive_buffer_size st h bytes).1.current = st.current + 1 ∧
      (packet_handler listen_port receive_buffer_size st h bytes).1.link_header_size =
        st.link_header_size ∧
      (packet_handler listen_port receive_buffer_size st h bytes).1.buffer_offset =
        st.buffer_offset + (to_int32 ((h.caplen : Int) - 28 - st.link_header_size) + 7).tdiv 8 ∧
      ((packet_handler listen_port receive_buffer_size st h bytes).2 = false →
        (packet_handler listen_port receive_buffer_size st h bytes).1.buffer_offset + 1500 / 8 ≤
          receive_buffer_size)) := by
  unfold packet_handler
  by_cases h1 : st.current ≥ st.len
  · rw [if_pos h1]
    exact Or.inl rfl
  rw [if_neg h1]
  dsimp only
  rw [Int.add_zero]
  by_cases h2 : (bytes st.link_header_size).val ≠ 0x45
  · rw [if_pos h2]
    exact Or.inl rfl
  rw [if_neg h2]
  by_cases h3 : (bytes (st.link_header_size + 6)).val &&& 0x20 ≠ 0
  · rw [if_pos h3]
    exact Or.inl rfl
  rw [if_neg h3]
  by_cases h4 : (bytes (st.link_header_size + 6)).val &&& 0x1f ≠ 0 ∨
      (bytes (st.link_header_size + 7)).val ≠ 0
  · rw [if_pos h4]
    exact Or.inl rfl
  rw [if_neg h4]
  by_cases h5 : (bytes (st.link_header_size + 9)).val ≠ 0x11
  · rw [if_pos h5]
    exact Or.inl rfl
  rw [if_neg h5]
  by_cases h6 : ((((bytes (st.link_header_size + 20 + 2)).val <<< 8) |||
      (bytes (st.link_header_size + 20 + 3)).val : Nat) : Int) ≠ listen_port
  · rw [if_pos h6]
    exact Or.inl rfl
  rw [if_neg h6]
  by_cases h7 : to_int32 ((h.caplen : Int) - 28 - st.link_header_size) > 1500
  · rw [if_pos h7]
    exact Or.inl rfl
  rw [if_neg h7]
  refine Or.inr ⟨by omega, ?_⟩
  by_cases h8 : st.buffer_offset +
      (to_int32 ((h.caplen : Int) - 28 - st.link_header_size) + 7).tdiv 8 + 1500 / 8 >
        receive_buffer_size
  · rw [if_pos h8]
    exact ⟨rfl, rfl, rfl, fun hf => absurd hf (by simp)⟩
  · rw [if_neg h8]
    refine ⟨rfl, rfl, rfl, fun _ => ?_⟩
    show st.buffer_offset +
      (to_int32 ((h.caplen : Int) - 28 - st.link_header_size) + 7).tdiv 8 + 1500 / 8 ≤
        receive_buffer_size
    omega

/-- A frame no longer than the snap length takes at most 184 arena words. -/
theorem snaplen_words (caplen : Nat) (hc : caplen ≤ snaplen) :
    (to_int32 ((caplen : Int) - 28 - 4) + 7).tdiv 8 ≤ 184 := by
  have hs : snaplen = 1500 := rfl
  have hlen : to_int32 ((caplen : Int) - 28 - 4) = (caplen : Int) - 32 := by
    rw [to_int32_small] <;> omega
  rw [hlen]
  by_cases h0 : 0 ≤ (caplen : Int) - 32 + 7
  · rw [Int.tdiv_eq_ediv h0 (by omega)]
    omega
  · have hle : ((caplen : Int) - 32 + 7).tdiv 8 ≤ 0 := by
      have h1 : (caplen : Int) - 32 + 7 = -(-((caplen : Int) - 32 + 7)) := by omega
      rw [h1, Int.neg_tdiv]
      have := Int.tdiv_nonneg (a := -((caplen : Int) - 32 + 7)) (b := 8) (by omega) (by omega)
      omega
    omega

theorem dispatch_loop_arena (listen_port receive_buffer_size : Int) (frames : List frame) :
    ∀ (cnt : Nat) (st : receive_state), (∀ f ∈ frames, f.h.caplen ≤ snaplen) →
      st.link_header_size = 4 → st.buffer_offset + 184 ≤ receive_buffer_size →
      ((dispatch_loop listen_port receive_buffer_size cnt frames st).buffer_offset ≤
          receive_buffer_size ∧
        (dispatch_loop listen_port receive_buffer_size cnt frames st).link_header_size = 4 ∧
        st.current ≤ (dispatch_loop listen_port receive_buffer_size cnt frames st).current ∧
        ((dispatch_loop listen_port receive_buffer_size cnt frames st).current = st.current →
          (dispatch_loop listen_port receive_buffer_size cnt frames st).buffer_offset =
            st.buffer_offset)) := by
  induction frames with
  | nil =>
    intro cnt st _ hl hr
    cases cnt <;> exact ⟨by simp only [dispatch_loop]; omega, hl, Int.le_refl _, fun _ => rfl⟩
  | cons f rest ih =>
    intro cnt st hf hl hr
    cases cnt with
    | zero => exact ⟨by simp only [dispatch_loop]; omega, hl, Int.le_refl _, fun _ => rfl⟩
    | succ cnt =>
      have hw := snaplen_words f.h.caplen (hf f (List.mem_cons_self _ _))
      have hrest : ∀ g ∈ rest, g.h.caplen ≤ snaplen :=
        fun g hg => hf g (List.mem_cons_of_mem _ hg)
      simp only [dispatch_loop]
      rcases packet_handler_stop listen_port receive_buffer_size st f.h f.bytes with
        hc | ⟨_, c1, c2, c3, c4⟩
      · split_ifs
        · rw [hc]
          exact ⟨by omega, hl, Int.le_refl _, fun _ => rfl⟩
        · rw [hc]
          exact ih cnt st hrest hl hr
      · rw [hl] at c2 c3
        split_ifs with hb
        · exact ⟨by rw [c3]; omega, c2, by rw [c1]; omega, fun he => by rw [c1] at he; omega⟩
        · have hnb := c4 (by simpa using hb)
          obtain ⟨i1, i2, i3, i4⟩ := ih cnt _ hrest c2 (by omega)
          exact ⟨i1, i2, by rw [c1] at i3; omega, fun he => by rw [c1] at i3; omega⟩

theorem pcap_dispatch_arena (listen_port receive_buffer_size cnt : Int) (frames : List frame)
    (st : receive_state) (hf : ∀ f ∈ frames, f.h.caplen ≤ snaplen)
    (hl : st.link_header_size = 4) (hr : st.buffer_offset + 184 ≤ receive_buffer_size) :
    (pcap_dispatch listen_port receive_buffer_size cnt frames st).buffer_offset ≤
      receive_buffer_size ∧
    (pcap_dispatch listen_port receive_buffer_size cnt frames st).link_header_size = 4 ∧
    st.current ≤ (pcap_dispatch listen_port receive_buffer_size cnt frames st).current ∧
    ((pcap_dispatch listen_port receive_buffer_size cnt frames st).current = st.current →
      (pcap_dispatch listen_port receive_buffer_size cnt frames st).buffer_offset =
        st.buffer_offset) :=
  dispatch_loop_arena listen_port receive_buffer_size frames _ st hf hl hr

theorem receive_loop_arena (listen_port receive_buffer_size : Int) (m_closed : Nat)
    (num : Int) (rounds : List dispatch_round) :
    ∀ (st : receive_state) (n : Nat),
      (∀ rd ∈ rounds, ∀ f ∈ rd.frames, f.h.caplen ≤ snaplen) →
      st.link_header_size = 4 → st.current = 0 →
      st.buffer_offset + 184 ≤ receive_buffer_size →
      (receive_loop listen_port receive_buffer_size m_closed num rounds st n).st.buffer_offset ≤
        receive_buffer_size := by
  induction rounds with
  | nil =>
    intro st n _ _ _ hr
    simp only [receive_loop]
    split_ifs <;> (show st.buffer_offset ≤ receive_buffer_size; omega)
  | cons rd rest ih =>
    intro st n hf hl hc hr
    obtain ⟨d1, d2, d3, d4⟩ := pcap_dispatch_arena listen_port receive_buffer_size
      (num - st.current) rd.frames st (hf rd (List.mem_cons_self _ _)) hl hr
    simp only [receive_loop]
    by_cases hcl : m_closed ≠ 0
    · rw [if_pos hcl]
      show st.buffer_offset ≤ receive_buffer_size
      omega
    rw [if_neg hcl]
    by_cases hneg : rd.r < 0
    · rw [if_pos hneg]
      by_cases h3 : rd.r = -3
      · rw [if_pos h3]
        exact d1
      · rw [if_neg h3]
        exact d1
    rw [if_neg hneg]
    by_cases hcur : (pcap_dispatch listen_port receive_buffer_size (num - st.current)
        rd.frames st).current ≠ 0
    · rw [if_pos hcur]
      exact d1
    · rw [if_neg hcur]
      have h0 : (pcap_dispatch listen_port receive_buffer_size (num - st.current)
          rd.frames st).current = 0 := by simpa using hcur
      refine ih _ _ (fun x hx => hf x (List.mem_cons_of_mem _ hx)) d2 h0 ?_
      rw [d4 (by rw [h0, hc])]
      exact hr

/-- C10 (as stated, refuted): with an arena of 183 words, one frame of captured length
1500 (payload length 1468, which is at most 1500) delivered within a `receive`
call moves the arena offset from 0 to 184, beyond the capacity. With an arena of
375 words and frames of payload length exactly 1500, the first frame moves the
offset to 188 without a stop being requested (188 + 1500/8 = 375) and the second
one to 376. -/
theorem arena_bound_fails :
    (sample_frame 1500).h.caplen ≤ snaplen ∧
    to_int32 (((sample_frame 1500).h.caplen : Int) - 28 - 4) = 1468 ∧
    (receive 8080 183 (sample_socket 4096) [⟨[sample_frame 1500], 1⟩]
      (fun _ => zero_packet) 4 (fun _ => 0) 0).st.buffer_offset = 184 ∧
    ¬ (receive 8080 183 (sample_socket 4096) [⟨[sample_frame 1500], 1⟩]
      (fun _ => zero_packet) 4 (fun _ => 0) 0).st.buffer_offset ≤ 183 ∧
    to_int32 (((sample_frame 1532).h.caplen : Int) - 28 - 4) = 1500 ∧
    (packet_handler 8080 375 (sample_state 4) (sample_frame 1532).h
      (sample_frame 1532).bytes).1.buffer_offset = 188 ∧
    (packet_handler 8080 375 (sample_state 4) (sample_frame 1532).h
      (sample_frame 1532).bytes).2 = false ∧
    (receive 8080 375 (sample_socket 4096) [⟨[sample_frame 1532, sample_frame 1532], 2⟩]
      (fun _ => zero_packet) 4 (fun _ => 0) 0).st.buffer_offset = 376 ∧
    ¬ (receive 8080 375 (sample_socket 4096) [⟨[sample_frame 1532, sample_frame 1532], 2⟩]
      (fun _ => zero_packet) 4 (fun _ => 0) 0).st.buffer_offset ≤ 375 := by
  decide

/-- C10 (amended): for every arena capacity of at least 184 words and every sequence
of captured frames no longer than the snap length 1500 (payload length at most
1468) delivered to `packet_handler` within one `receive` call on a `DLT_NULL`
socket, the arena offset never exceeds the capacity, after any number of frames
of any dispatch; and whenever the handler records a frame without requesting the
stop, a further frame of any captured length up to the snap length still fits in
the arena. -/
theorem arena_bound_within_snaplen (listen_port receive_buffer_size : Int)
    (hcap : 184 ≤ receive_buffer_size) :
    (∀ (s : packet_socket) (rounds : List dispatch_round)
      (in_packets : Int → incoming_packet_t) (num : Int) (m_buffer : Int → Byte) (unset : Int),
      s.m_link_layer = DLT_NULL →
      (∀ rd ∈ rounds, ∀ f ∈ rd.frames, f.h.caplen ≤ snaplen) →
      (receive listen_port receive_buffer_size s rounds in_packets num m_buffer
        unset).st.buffer_offset ≤ receive_buffer_size) ∧
    (∀ (in_packets : Int → incoming_packet_t) (num : Int) (m_buffer : Int → Byte) (cnt : Int)
      (frames : List frame) (k : Nat), (∀ f ∈ frames, f.h.caplen ≤ snaplen) →
      (pcap_dispatch listen_port receive_buffer_size cnt (frames.take k)
        (receive_init in_packets num m_buffer)).buffer_offset ≤ receive_buffer_size) ∧
    (∀ (st : receive_state) (h : pcap_pkthdr) (bytes : Int → Byte) (caplen : Nat),
      st.link_header_size = 4 →
      (packet_handler listen_port receive_buffer_size st h bytes).1.current ≠ st.current →
      (packet_handler listen_port receive_buffer_size st h bytes).2 = false →
      caplen ≤ snaplen →
      (packet_handler listen_port receive_buffer_size st h bytes).1.buffer_offset +
        (to_int32 ((caplen : Int) - 28 - 4) + 7).tdiv 8 ≤ receive_buffer_size) := by
  refine ⟨?_, ?_, ?_⟩
  · intro s rounds in_packets num m_buffer unset hl hf
    unfold receive
    simp only [if_pos hl]
    exact receive_loop_arena listen_port receive_buffer_size s.m_closed num rounds _ 0 hf rfl rfl
      (by show (0 : Int) + 184 ≤ receive_buffer_size; omega)
  · intro in_packets num m_buffer cnt frames k hf
    exact (pcap_dispatch_arena listen_port receive_buffer_size cnt (frames.take k)
      (receive_init in_packets num m_buffer)
      (fun f hfm => hf f (List.mem_of_mem_take hfm)) rfl
      (by show (0 : Int) + 184 ≤ receive_buffer_size; omega)).1
  · intro st h bytes caplen hl hrec hns hc
    have hw := snaplen_words caplen hc
    rcases packet_handler_stop listen_port receive_buffer_size st h bytes with
      hsame | ⟨_, _, _, _, c4⟩
    · rw [hsame] at hrec
      exact absurd rfl hrec
    · have := c4 hns
      omega

/-- Witness for `arena_bound_within_snaplen`: three frames of captured length 1500
delivered in one round to an arena of 375 words; the second one requests the
stop. -/
theorem arena_bound_within_snaplen_witness :
    (184 : Int) ≤ 375 ∧
    (sample_socket 4096).m_link_layer = DLT_NULL ∧
    (∀ rd ∈ [(⟨[sample_frame 1500, sample_frame 1500, sample_frame 1500], 2⟩ : dispatch_round)],
      ∀ f ∈ rd.frames, f.h.caplen ≤ snaplen) ∧
    (receive 8080 375 (sample_socket 4096)
      [⟨[sample_frame 1500, sample_frame 1500, sample_frame 1500], 2⟩]
      (fun _ => zero_packet) 4 (fun _ => 0) 0).st.buffer_offset = 368 ∧
    (receive 8080 375 (sample_socket 4096)
      [⟨[sample_frame 1500, sample_frame 1500, sample_frame 1500], 2⟩]
      (fun _ => zero_packet) 4 (fun _ => 0) 0).st.buffer_offset ≤ 375 :=
  ⟨by decide, rfl, by decide, by decide,
    (arena_bound_within_snaplen 8080 375 (by decide)).1 (sample_socket 4096)
      [⟨[sample_frame 1500, sample_frame 1500, sample_frame 1500], 2⟩]
      (fun _ => zero_packet) 4 (fun _ => 0) 0 rfl (by decide)⟩

/-! ### Frames beyond the snap length, for an arbitrary capacity -/

theorem packet_handler_sample_frame (receive_buffer_size : Int) (st : receive_state)
    (n : Nat) (hn : 32 ≤ n) (hn' : n ≤ 1532) (hl : st.link_header_size = 4)
    (hc : st.current < st.len) :
    (packet_handler 8080 receive_buffer_size st (sample_frame n).h
      (sample_frame n).bytes).1.buffer_offset = st.buffer_offset + ((n : Int) - 32 + 7) / 8 ∧
    (packet_handler 8080 receive_buffer_size st (sample_frame n).h
      (sample_frame n).bytes).1.current = st.current + 1 ∧
    (packet_handler 8080 receive_buffer_size st (sample_frame n).h
      (sample_frame n).bytes).1.len = st.len ∧
    (packet_handler 8080 receive_buffer_size st (sample_frame n).h
      (sample_frame n).bytes).1.link_header_size = 4 ∧
    ((packet_handler 8080 receive_buffer_size st (sample_frame n).h
      (sample_frame n).bytes).2 = true ↔
      st.buffer_offset + ((n : Int) - 32 + 7) / 8 + 187 > receive_buffer_size) := by
  have hlen : to_int32 (((sample_frame n).h.caplen : Int) - 28 - st.link_header_size) =
      (n : Int) - 32 := by
    rw [hl, to_int32_small] <;> simp only [sample_frame] <;> omega
  have acc := packet_handler_accept 8080 receive_buffer_size st (sample_frame n).h
    (sample_frame n).bytes hc
    (by rw [hl]; simp only [sample_frame]; decide) (by rw [hl]; simp only [sample_frame]; decide)
    (by rw [hl]; simp only [sample_frame]; decide) (by rw [hl]; simp only [sample_frame]; decide)
    (by rw [hl]; simp only [sample_frame]; decide) (by rw [hlen]; omega)
  rw [hlen] at acc
  have hdiv : ((n : Int) - 32 + 7).tdiv 8 = ((n : Int) - 32 + 7) / 8 :=
    Int.tdiv_eq_ediv (by omega) (by omega)
  rw [hdiv] at acc
  rw [acc.1]
  refine ⟨rfl, rfl, rfl, hl, ?_⟩
  rw [acc.2]
  exact Iff.rfl

theorem dispatch_loop_overflow (receive_buffer_size : Int) (k : Nat) :
    ∀ (fuel : Nat) (st : receive_state), k + 1 ≤ fuel → st.link_header_size = 4 →
      st.current + k < st.len →
      (k ≠ 0 → st.buffer_offset + k + 187 ≤ receive_buffer_size) →
      (dispatch_loop 8080 receive_buffer_size fuel
        (List.replicate k (sample_frame 40) ++ [sample_frame 1532]) st).buffer_offset =
        st.buffer_offset + k + 188 := by
  induction k with
  | zero =>
    intro fuel st hf hl hc _
    obtain ⟨fuel, rfl⟩ : ∃ f, fuel = f + 1 := ⟨fuel - 1, by omega⟩
    have hs := packet_handler_sample_frame receive_buffer_size st 1532 (by omega) (by omega) hl
      (by omega)
    simp only [List.replicate_zero, List.nil_append, dispatch_loop]
    split_ifs
    · rw [hs.1]; omega
    · cases fuel <;> simp only [dispatch_loop] <;> rw [hs.1] <;> omega
  | succ k ih =>
    intro fuel st hf hl hc hr
    obtain ⟨fuel, rfl⟩ : ∃ f, fuel = f + 1 := ⟨fuel - 1, by omega⟩
    have hs := packet_handler_sample_frame receive_buffer_size st 40 (by omega) (by omega) hl
      (by omega)
    have hnb : ¬ (packet_handler 8080 receive_buffer_size st (sample_frame 40).h
        (sample_frame 40).bytes).2 = true := by
      rw [hs.2.2.2.2]
      have := hr (by omega)
      omega
    rw [List.replicate_succ, List.cons_append]
    simp only [dispatch_loop]
    rw [if_neg hnb, ih fuel _ (by omega) hs.2.2.2.1 (by rw [hs.2.1, hs.2.2.1]; omega)
      (by intro hk; have := hr (by omega); rw [hs.1]; omega), hs.1]
    omega

/-- Were frames of payload length 1500 (captured length 1532, beyond the snap length)
delivered, no capacity would be safe: whatever `receive_buffer_size` is, some
sequence of frames with payload lengths 8 and 1500, delivered within one dispatch
from offset 0 with enough descriptor slots, drives the arena offset beyond it. -/
theorem arena_overflow_every_capacity (receive_buffer_size : Int) :
    (pcap_dispatch 8080 receive_buffer_size (((receive_buffer_size - 187).toNat + 1 : Nat) : Int)
      (List.replicate (receive_buffer_size - 187).toNat (sample_frame 40) ++ [sample_frame 1532])
      (sample_state (((receive_buffer_size - 187).toNat + 1 : Nat) : Int))).buffer_offset
      > receive_buffer_size := by
  unfold pcap_dispatch
  rw [if_neg (by omega)]
  rw [dispatch_loop_overflow receive_buffer_size _ _ _ (by omega) rfl
    (by simp only [sample_state, receive_init]; omega)
    (by simp only [sample_state, receive_init]; omega)]
  simp only [sample_state, receive_init]
  omega

/-! ## C11: the transmitter splits the drained buffer into the appended frames -/

/-- C11: when batches that start empty are filled by `append` calls and handed by
`send` to a channel that starts empty, the transmit loop over the drained buffer
`[0, end)` hands the capture device exactly the frames of the handed-over
`append` calls (the bytes after each 2-byte prefix), in the order they were
appended, and finishes with its index equal to `end`; when every `append` and
every `send` succeeded these are the frames of all calls. The buffer and `end` are
the ones the locked section of the transmitter takes. -/
theorem send_thread_splits_frames (listen_port : Int) (s : packet_socket)
    (script : List (packet_buffer × List append_call))
    (h0 : s.m_send_cursor = 0) (hb : ∀ bc ∈ script, bc.1.m_send_cursor = 0) :
    let t := hand_over listen_port s script
    let buf := (t.1.m_send_buffer t.1.m_buffer_idx).data
    (send_thread_drain buf t.1.m_send_cursor).1.map (sendpacket_call.bytes buf) = t.2.1 ∧
    (send_thread_drain buf t.1.m_send_cursor).2 = t.1.m_send_cursor ∧
    (t.2.2 = true → t.2.1.length = (script.map fun bc => bc.2.length).sum) ∧
    (∀ s' idx end_, send_thread_swap t.1 = some (s', idx, end_) →
      idx = t.1.m_buffer_idx ∧ end_ = t.1.m_send_cursor ∧
      s'.m_send_buffer idx = t.1.m_send_buffer t.1.m_buffer_idx) := by
  intro t buf
  obtain ⟨i1, i2, i3, i4, i5, i6⟩ := hand_over_inv listen_port script s []
    hb (by rw [h0]; exact Nat.zero_le _) (by rw [h0]; rfl)
  rw [List.nil_append, ← i1] at i4
  have hle : t.2.1.length ≤ t.1.m_send_cursor := by
    have := framed_le _ _ _ _ i4
    simp only [t]
    omega
  obtain ⟨r1, r2, r3, -, -⟩ := send_thread_loop_framed buf t.2.1 t.1.m_send_cursor
    t.1.m_send_cursor 0 hle i4
  refine ⟨r1, r3, i6, ?_⟩
  intro s' idx end_ hsw
  unfold send_thread_swap at hsw
  split_ifs at hsw with hz
  simp only [Option.some.injEq, Prod.mk.injEq] at hsw
  obtain ⟨h1, h2, h3⟩ := hsw
  subst h1 h2 h3
  exact ⟨rfl, rfl, rfl⟩

/-- Witness for `send_thread_splits_frames`: two batches of two frames each handed to
an empty socket with 4096-byte send buffers. -/
theorem send_thread_splits_frames_witness :
    (sample_socket 4096).m_send_cursor = 0 ∧
    (∀ bc ∈ sample_script, bc.1.m_send_cursor = 0) ∧
    (hand_over 8080 (sample_socket 4096) sample_script).2.2 = true ∧
    (send_thread_drain
      (((hand_over 8080 (sample_socket 4096) sample_script).1.m_send_buffer
        (hand_over 8080 (sample_socket 4096) sample_script).1.m_buffer_idx).data)
      (hand_over 8080 (sample_socket 4096) sample_script).1.m_send_cursor).2 =
      (hand_over 8080 (sample_socket 4096) sample_script).1.m_send_cursor ∧
    (hand_over 8080 (sample_socket 4096) sample_script).1.m_send_cursor = 166 :=
  ⟨rfl, by decide, by decide,
    (send_thread_splits_frames 8080 (sample_socket 4096) sample_script rfl (by decide)).2.1,
    by decide⟩

/-! ## C12: the invariant of the outgoing batch -/

/-- C12: after any sequence of `append` calls, successful or not, on a batch that
started empty, the cursor is at most the capacity of the buffer (which never
changes), the bytes in `[0, cursor)` are the length-prefixed frames of the
successful calls in order, ending exactly at the cursor, with every frame length in
`(0, 1500]`; and any single `append`, on any batch, leaves every byte below the
old cursor unchanged. -/
theorem batch_invariant (listen_port : Int) (b : packet_buffer) (calls : List append_call)
    (h0 : b.m_send_cursor = 0) :
    (append_seq listen_port b calls).1.m_send_cursor ≤
      (append_seq listen_port b calls).1.m_buf.size ∧
    (append_seq listen_port b calls).1.m_buf.size = b.m_buf.size ∧
    framed (append_seq listen_port b calls).1.m_buf.data 0 (append_seq listen_port b calls).2.1
      (append_seq listen_port b calls).1.m_send_cursor ∧
    (∀ f ∈ (append_seq listen_port b calls).2.1, 0 < f.length ∧ f.length ≤ 1500) ∧
    (∀ (b' : packet_buffer) (v : List (List Byte)) (to_ : sockaddr) (j : Nat),
      j < b'.m_send_cursor →
        (append listen_port b' v to_).2.m_buf.data j = b'.m_buf.data j) := by
  obtain ⟨a1, a2, a3, a4, _⟩ := append_seq_inv listen_port calls b []
    (by rw [h0]; exact Nat.zero_le _) (by rw [h0]; rfl)
  rw [List.nil_append] at a3
  refine ⟨a1, a2, a3, ?_, ?_⟩
  · intro f hf
    have := a4 f hf
    omega
  · intro b' v to_ j hj
    exact append_below_cursor listen_port b' v to_ j hj

/-- Witness for `batch_invariant`: the two sample calls on the empty sample batch. -/
theorem batch_invariant_witness :
    (sample_batch 10 0 0 1).m_send_cursor = 0 ∧
    (append_seq 8080 (sample_batch 10 0 0 1) sample_calls).1.m_send_cursor = 83 ∧
    framed (append_seq 8080 (sample_batch 10 0 0 1) sample_calls).1.m_buf.data 0
      (append_seq 8080 (sample_batch 10 0 0 1) sample_calls).2.1
      (append_seq 8080 (sample_batch 10 0 0 1) sample_calls).1.m_send_cursor :=
  ⟨rfl, by decide, (batch_invariant 8080 (sample_batch 10 0 0 1) sample_calls rfl).2.2.1⟩

/-! ## C13: the two send buffers do not interfere -/

theorem flip_idx (n : Nat) : (n + 1) &&& 1 = (n + 1) % 2 :=
  Nat.and_pow_two_sub_one_eq_mod (n + 1) 1

theorem send_idx (s : packet_socket) (packets : packet_buffer) :
    (send s packets).2.1.m_buffer_idx = s.m_buffer_idx := by
  unfold send
  split_ifs <;> rfl

theorem send_other_buffer (s : packet_socket) (packets : packet_buffer) (i : Nat)
    (hi : i ≠ s.m_buffer_idx) :
    (send s packets).2.1.m_send_buffer i = s.m_send_buffer i := by
  unfold send
  split_ifs
  · rfl
  · rfl
  · simp [hi]

theorem send_all_other_buffer (batches : List packet_buffer) :
    ∀ (s : packet_socket) (i : Nat), i ≠ s.m_buffer_idx →
      (send_all s batches).m_buffer_idx = s.m_buffer_idx ∧
      (send_all s batches).m_send_buffer i = s.m_send_buffer i := by
  induction batches with
  | nil => intro s i _; exact ⟨rfl, rfl⟩
  | cons p rest ih =>
    intro s i hi
    have h1 := send_idx s p
    have h2 := send_other_buffer s p i hi
    obtain ⟨r1, r2⟩ := ih (send s p).2.1 i (by rw [h1]; exact hi)
    simp only [send_all, List.foldl_cons] at r1 r2 ⊢
    exact ⟨by rw [r1, h1], by rw [r2, h2]⟩

theorem channel_step_idx (s : packet_socket) (op : channel_op) (h : s.m_buffer_idx ≤ 1) :
    (channel_step s op).m_buffer_idx ≤ 1 := by
  cases op with
  | send packets =>
    simp only [channel_step, send_idx]
    exact h
  | swap =>
    simp only [channel_step, send_thread_swap]
    split_ifs
    · exact h
    · simp only [flip_idx]
      omega

/-- C13: from a socket whose active index is 0 or 1, every sequence of `send` calls
and transmitter swaps keeps the active index 0 or 1. With bytes pending, the
locked section of the transmitter hands out the formerly active buffer with `end`
equal to the old cursor, moves the active index to the other buffer, resets the
cursor to 0 and changes no buffer. A `send` changes no buffer but the active
one, so after a swap any number of `send` calls leave the drained buffer
unchanged and the active index where the swap put it. -/
theorem double_buffer_non_interference :
    (∀ (s : packet_socket) (ops : List channel_op), s.m_buffer_idx = 0 ∨ s.m_buffer_idx = 1 →
      (channel_run s ops).m_buffer_idx = 0 ∨ (channel_run s ops).m_buffer_idx = 1) ∧
    (∀ (s : packet_socket), s.m_send_cursor ≠ 0 →
      s.m_buffer_idx = 0 ∨ s.m_buffer_idx = 1 →
      ∃ s', send_thread_swap s = some (s', s.m_buffer_idx, s.m_send_cursor) ∧
        s'.m_buffer_idx = 1 - s.m_buffer_idx ∧ s'.m_buffer_idx ≠ s.m_buffer_idx ∧
        s'.m_send_cursor = 0 ∧ s'.m_send_buffer = s.m_send_buffer) ∧
    (∀ (s : packet_socket) (packets : packet_buffer) (i : Nat), i ≠ s.m_buffer_idx →
      (send s packets).2.1.m_send_buffer i = s.m_send_buffer i ∧
      (send s packets).2.1.m_buffer_idx = s.m_buffer_idx) ∧
    (∀ (s s' : packet_socket) (idx end_ : Nat) (batches : List packet_buffer),
      send_thread_swap s = some (s', idx, end_) →
      (send_all s' batches).m_send_buffer idx = s.m_send_buffer idx ∧
      (send_all s' batches).m_buffer_idx = s'.m_buffer_idx) := by
  refine ⟨?_, ?_, ?_, ?_⟩
  · intro s ops h
    have key : ∀ (ops : List channel_op) (s : packet_socket), s.m_buffer_idx ≤ 1 →
        (channel_run s ops).m_buffer_idx ≤ 1 := by
      intro ops
      induction ops with
      | nil => intro s h; exact h
      | cons op rest ih =>
        intro s h
        simp only [channel_run, List.foldl_cons]
        exact ih _ (channel_step_idx s op h)
    have := key ops s (by omega)
    omega
  · intro s hc h
    refine ⟨{ s with m_buffer_idx := (s.m_buffer_idx + 1) &&& 1, m_send_cursor := 0 }, ?_, ?_,
      ?_, rfl, rfl⟩
    · simp only [send_thread_swap, if_neg hc]
    · simp only [flip_idx]
      omega
    · simp only [flip_idx]
      omega
  · intro s packets i hi
    exact ⟨send_other_buffer s packets i hi, send_idx s packets⟩
  · intro s s' idx end_ batches hsw
    unfold send_thread_swap at hsw
    split_ifs at hsw with hz
    simp only [Option.some.injEq, Prod.mk.injEq] at hsw
    obtain ⟨h1, h2, h3⟩ := hsw
    subst h1 h2 h3
    have hne : s.m_buffer_idx ≠ (s.m_buffer_idx + 1) &&& 1 := by
      rw [flip_idx]
      omega
    obtain ⟨r1, r2⟩ := send_all_other_buffer batches
      { s with m_buffer_idx := (s.m_buffer_idx + 1) &&& 1, m_send_cursor := 0 }
      s.m_buffer_idx hne
    exact ⟨r2, r1⟩

/-- Witness for `double_buffer_non_interference`: a swap on a socket with 83 bytes
pending in buffer 0, followed by a `send` of the filled sample batch. -/
theorem double_buffer_non_interference_witness :
    (send_thread_swap (send (sample_socket 4096)
        (append_seq 8080 (sample_batch 10 0 0 1) sample_calls).1).2.1).isSome = true ∧
    (channel_run (sample_socket 4096)
      [.send (append_seq 8080 (sample_batch 10 0 0 1) sample_calls).1, .swap,
        .send (append_seq 8080 (sample_batch 10 0 0 1) sample_calls).1]).m_buffer_idx = 1 ∧
    ((channel_run (sample_socket 4096)
      [.send (append_seq 8080 (sample_batch 10 0 0 1) sample_calls).1, .swap,
        .send (append_seq 8080 (sample_batch 10 0 0 1) sample_calls).1]).m_buffer_idx = 0 ∨
     (channel_run (sample_socket 4096)
      [.send (append_seq 8080 (sample_batch 10 0 0 1) sample_calls).1, .swap,
        .send (append_seq 8080 (sample_batch 10 0 0 1) sample_calls).1]).m_buffer_idx = 1) :=
  ⟨by decide, by decide,
    double_buffer_non_interference.1 (sample_socket 4096)
      [.send (append_seq 8080 (sample_batch 10 0 0 1) sample_calls).1, .swap,
        .send (append_seq 8080 (sample_batch 10 0 0 1) sample_calls).1] (Or.inl rfl)⟩

/-! ## C14: `receive` on a closed socket -/

theorem channel_step_closed (s : packet_socket) (op : channel_op) :
    (channel_step s op).m_closed = s.m_closed := by
  cases op with
  | send packets =>
    simp only [channel_step, send]
    split_ifs <;> rfl
  | swap =>
    simp only [channel_step, send_thread_swap]
    split_ifs <;> rfl

/-- C14: when the closed flag is set on entry, `receive` returns -1 without a single
`pcap_dispatch` call and with the descriptor array, the count, the arena and the
arena offset as they were on entry; `close` stores 1 in the flag, and neither
`close`, `send` nor the transmitter's locked section ever brings a set flag back
to 0. -/
theorem receive_closed (listen_port receive_buffer_size : Int) (s : packet_socket)
    (rounds : List dispatch_round) (in_packets : Int → incoming_packet_t) (num : Int)
    (m_buffer : Int → Byte) (unset : Int) (hc : s.m_closed ≠ 0) :
    (receive listen_port receive_buffer_size s rounds in_packets num m_buffer unset).outcome =
      .returned (-1) ∧
    (receive listen_port receive_buffer_size s rounds in_packets num m_buffer unset).dispatched
      = 0 ∧
    (receive listen_port receive_buffer_size s rounds in_packets num m_buffer unset).st.pkts =
      in_packets ∧
    (receive listen_port receive_buffer_size s rounds in_packets num m_buffer unset).st.current
      = 0 ∧
    (receive listen_port receive_buffer_size s rounds in_packets num m_buffer unset).st.buffer =
      m_buffer ∧
    (receive listen_port receive_buffer_size s rounds in_packets num m_buffer
      unset).st.buffer_offset = 0 ∧
    (∀ s' : packet_socket, (close s').m_closed = 1) ∧
    (∀ (s' : packet_socket) (ops : List channel_op), s'.m_closed ≠ 0 →
      (channel_run s' ops).m_closed ≠ 0 ∧ (channel_run (close s') ops).m_closed ≠ 0) := by
  have key : ∀ (ops : List channel_op) (s' : packet_socket),
      (channel_run s' ops).m_closed = s'.m_closed := by
    intro ops
    induction ops with
    | nil => intro s'; rfl
    | cons op rest ih =>
      intro s'
      simp only [channel_run, List.foldl_cons] at ih ⊢
      rw [ih, channel_step_closed]
  have hr : receive listen_port receive_buffer_size s rounds in_packets num m_buffer unset =
      ⟨.returned (-1),
        if s.m_link_layer = DLT_NULL then receive_init in_packets num m_buffer
        else { receive_init in_packets num m_buffer with link_header_size := unset }, 0⟩ := by
    unfold receive
    cases rounds <;> simp only [receive_loop, if_pos hc]
  rw [hr]
  refine ⟨rfl, rfl, ?_, ?_, ?_, ?_, fun _ => rfl, ?_⟩
  · split_ifs <;> rfl
  · split_ifs <;> rfl
  · split_ifs <;> rfl
  · split_ifs <;> rfl
  · intro s' ops h
    rw [key, key]
    exact ⟨h, by simp [close]⟩

/-- Witness for `receive_closed`: a closed sample socket with one frame waiting. -/
theorem receive_closed_witness :
    (close (sample_socket 4096)).m_closed ≠ 0 ∧
    (receive 8080 1000 (close (sample_socket 4096)) [⟨[sample_frame 44], 1⟩]
      (fun _ => zero_packet) 4 (fun _ => 0) 0).outcome = .returned (-1) ∧
    (receive 8080 1000 (close (sample_socket 4096)) [⟨[sample_frame 44], 1⟩]
      (fun _ => zero_packet) 4 (fun _ => 0) 0).dispatched = 0 :=
  have h := receive_closed 8080 1000 (close (sample_socket 4096)) [⟨[sample_frame 44], 1⟩]
    (fun _ => zero_packet) 4 (fun _ => 0) 0 (by decide)
  ⟨by decide, h.1, h.2.1⟩

/-! ## C15: what `packet_handler` records for an accepted frame -/

/-- C15: with link header size 4 and a descriptor array that is not full, a frame
that passes the header checks and has `32 <= caplen <= 1532` makes
`packet_handler` raise the count by exactly one; the new descriptor has payload
length `caplen - 32`, its payload is the frame bytes `[32, caplen)` copied into
the arena at the old offset (the rest of the arena is unchanged), its source port
is UDP header bytes 0..1, its source address IP header bytes 12..15 and its family
IPv4; the arena offset advances by `(caplen - 32 + 7) / 8` words. -/
theorem packet_handler_decodes (listen_port receive_buffer_size : Int) (st : receive_state)
    (h : pcap_pkthdr) (bytes : Int → Byte)
    (hl : st.link_header_size = 4) (hc : st.current < st.len)
    (h0 : bytes 4 = 0x45)
    (hmf : (bytes (4 + 6)).val &&& 0x20 = 0)
    (hfrag : (256 * (bytes (4 + 6)).val + (bytes (4 + 7)).val) % 8192 = 0)
    (h9 : bytes (4 + 9) = 17)
    (hp : ((256 * (bytes (4 + 20 + 2)).val + (bytes (4 + 20 + 3)).val : Nat) : Int) =
      listen_port)
    (hlo : 32 ≤ h.caplen) (hhi : h.caplen ≤ 1532) :
    let st' := (packet_handler listen_port receive_buffer_size st h bytes).1
    st'.current = st.current + 1 ∧
    (∀ i, i ≠ st.current → st'.pkts i = st.pkts i) ∧
    (st'.pkts st.current).buflen = ((h.caplen - 32 : Nat) : Int) ∧
    (st'.pkts st.current).buffer = st.buffer_offset ∧
    (st'.pkts st.current).payload st'.buffer = read_at bytes 32 (h.caplen - 32) ∧
    (∀ j, j < 8 * st.buffer_offset ∨ 8 * st.buffer_offset + ((h.caplen - 32 : Nat) : Int) ≤ j →
      st'.buffer j = st.buffer j) ∧
    (st'.pkts st.current).from_.sin_port = ⟨bytes (4 + 20), bytes (4 + 20 + 1)⟩ ∧
    (st'.pkts st.current).from_.sin_addr =
      ⟨bytes (4 + 12), bytes (4 + 13), bytes (4 + 14), bytes (4 + 15)⟩ ∧
    (st'.pkts st.current).from_.sa_family = AF_INET ∧
    st'.buffer_offset = st.buffer_offset + (((h.caplen - 32 + 7) / 8 : Nat) : Int) := by
  intro st'
  have hlen : to_int32 ((h.caplen : Int) - 28 - st.link_header_size) =
      ((h.caplen - 32 : Nat) : Int) := by
    rw [hl, to_int32_small] <;> omega
  have b7 := (bytes (4 + 7)).isLt
  have e4 := and_1f (bytes (4 + 6)).val
  have acc := (packet_handler_accept listen_port receive_buffer_size st h bytes hc
    (by rw [hl]; exact h0) (by rw [hl]; exact hmf)
    (by rw [hl, e4]; constructor <;> omega)
    (by rw [hl]; exact h9) (by rw [hl]; exact hp) (by rw [hlen]; omega)).1
  have hst : st' = _ := acc
  rw [hlen, hl] at hst
  have hdiv : (((h.caplen - 32 : Nat) : Int) + 7).tdiv 8 = (((h.caplen - 32 + 7) / 8 : Nat) : Int) := by
    rw [Int.tdiv_eq_ediv (by omega) (by omega)]
    omega
  rw [hst]
  simp only [if_true]
  refine ⟨trivial, ?_, trivial, trivial, ?_, ?_, ?_, trivial, trivial, ?_⟩
  · intro i hi
    rw [if_neg hi]
  · simp only [incoming_packet_t.payload, Int.toNat_ofNat]
    apply List.ext_getElem
    · simp [read_at]
    · intro i h1 _
      have hi : i < h.caplen - 32 := by simpa [read_at] using h1
      simp only [read_at, List.getElem_map, List.getElem_range, memcpy_at]
      rw [if_pos ⟨by omega, by omega⟩]
      congr 1
      omega
  · intro j hj
    simp only [memcpy_at]
    rw [if_neg (by omega)]
  · simp
  · exact congrArg _ hdiv

/-- Witness for `packet_handler_decodes`: the sample frame with a 12-byte payload. -/
theorem packet_handler_decodes_witness :
    (sample_state 4).link_header_size = 4 ∧ (sample_state 4).current < (sample_state 4).len ∧
    (packet_handler 8080 1000 (sample_state 4) (sample_frame 44).h
      (sample_frame 44).bytes).1.current = (sample_state 4).current + 1 ∧
    ((packet_handler 8080 1000 (sample_state 4) (sample_frame 44).h
      (sample_frame 44).bytes).1.pkts (sample_state 4).current).buflen =
      (((sample_frame 44).h.caplen - 32 : Nat) : Int) :=
  have h := packet_handler_decodes 8080 1000 (sample_state 4) (sample_frame 44).h
    (sample_frame 44).bytes rfl (by decide) (by decide) (by decide) (by decide) (by decide)
    (by decide) (by decide) (by decide)
  ⟨rfl, by decide, h.1, h.2.2.1⟩

/-! ## C16: the bound of the descriptor array -/

/-- C16: from a state with `0 <= current <= len`, `packet_handler` leaves
`current <= len` and `len` unchanged; `current` grows by at most one, and only
when `current < len` held on entry. When `current >= len` on entry it returns
with the state unchanged (no descriptor written, arena offset as before) and the
stop requested. Hence a value that `receive` returns is either -1 or a count
between 1 and `num`. -/
theorem descriptor_array_bound (listen_port receive_buffer_size : Int) :
    (∀ (st : receive_state) (h : pcap_pkthdr) (bytes : Int → Byte),
      0 ≤ st.current → st.current ≤ st.len →
      (packet_handler listen_port receive_buffer_size st h bytes).1.current ≤
        (packet_handler listen_port receive_buffer_size st h bytes).1.len ∧
      (packet_handler listen_port receive_buffer_size st h bytes).1.len = st.len ∧
      st.current ≤ (packet_handler listen_port receive_buffer_size st h bytes).1.current ∧
      (packet_handler listen_port receive_buffer_size st h bytes).1.current ≤ st.current + 1 ∧
      ((packet_handler listen_port receive_buffer_size st h bytes).1.current ≠ st.current →
        st.current < st.len)) ∧
    (∀ (st : receive_state) (h : pcap_pkthdr) (bytes : Int → Byte), st.current ≥ st.len →
      packet_handler listen_port receive_buffer_size st h bytes = (st, true)) ∧
    (∀ (s : packet_socket) (rounds : List dispatch_round)
      (in_packets : Int → incoming_packet_t) (num : Int) (m_buffer : Int → Byte)
      (unset r : Int),
      (receive listen_port receive_buffer_size s rounds in_packets num m_buffer unset).outcome
        = .returned r →
      r = -1 ∨ (0 < r ∧ r ≤ num)) := by
  refine ⟨?_, ?_, ?_⟩
  · intro st h bytes h0 h1
    rcases packet_handler_cases listen_port receive_buffer_size st h bytes with hc | ⟨h2, _, hc⟩
    · rw [hc]
      exact ⟨h1, rfl, Int.le_refl _, by omega, fun hne => absurd rfl hne⟩
    · rw [hc]
      refine ⟨?_, rfl, ?_, ?_, fun _ => h2⟩
      · show st.current + 1 ≤ st.len
        omega
      · show st.current ≤ st.current + 1
        omega
      · exact Int.le_refl _
  · intro st h bytes hfull
    exact packet_handler_full listen_port receive_buffer_size st h bytes hfull
  · intro s rounds in_packets num m_buffer unset r hr
    unfold receive at hr
    refine receive_loop_count listen_port receive_buffer_size s.m_closed num rounds _ 0 r ?_ hr
    split_ifs
    · exact ⟨rfl, Int.le_refl _, Or.inl rfl⟩
    · exact ⟨rfl, Int.le_refl _, Or.inl rfl⟩

/-- Witness for `descriptor_array_bound`: a full descriptor array and a `receive` call
for one descriptor with two frames ready. -/
theorem descriptor_array_bound_witness :
    packet_handler 8080 1000 (sample_state 0) (sample_frame 44).h (sample_frame 44).bytes =
      (sample_state 0, true) ∧
    (receive 8080 1000 (sample_socket 4096) [⟨[sample_frame 44, sample_frame 44], 1⟩]
      (fun _ => zero_packet) 1 (fun _ => 0) 0).outcome = .returned 1 ∧
    ((1 : Int) = -1 ∨ (0 < (1 : Int) ∧ (1 : Int) ≤ 1)) :=
  ⟨(descriptor_array_bound 8080 1000).2.1 (sample_state 0) (sample_frame 44).h
      (sample_frame 44).bytes (by decide),
    by decide,
    (descriptor_array_bound 8080 1000).2.2 (sample_socket 4096)
      [⟨[sample_frame 44, sample_frame 44], 1⟩] (fun _ => zero_packet) 1 (fun _ => 0) 0 1
      (by decide)⟩

/-! ## C17: the assertions on the send path -/

/-- C17: the frame length `len` computed by `append` on the path past its size guard
is `32 +` the payload size and at most 1500, and a successful `append` advances
the cursor by `len + 2`. When batches that start empty are filled by `append`
calls and handed by `send` to a channel that starts empty, every round of the
transmit loop over the pending region satisfies the three assertions
(`0 < len <= 1500`, `buf->size() - i >= len`), the indices of the rounds strictly
increase, and the loop finishes, within `end` rounds, with its index equal to
`end`. -/
theorem send_path_asserts (listen_port : Int) (s : packet_socket)
    (script : List (packet_buffer × List append_call))
    (h0 : s.m_send_cursor = 0) (hb : ∀ bc ∈ script, bc.1.m_send_cursor = 0) :
    (∀ (m : Nat → Byte) (ptr : Nat) (v : List (List Byte)), ¬ iov_total v > 1500 - 28 - 30 →
      (copy_iov m ptr (0 + 4 + 20 + 8) v).2.2 = 32 + iov_total v ∧
      (copy_iov m ptr (0 + 4 + 20 + 8) v).2.2 ≤ 1500) ∧
    (∀ (b : packet_buffer) (v : List (List Byte)) (to_ : sockaddr),
      (append listen_port b v to_).1 = true →
      (append listen_port b v to_).2.m_send_cursor =
        b.m_send_cursor + ((32 + iov_total v) + 2)) ∧
    (let t := hand_over listen_port s script
     let buf := t.1.m_send_buffer t.1.m_buffer_idx
     (∀ c ∈ (send_thread_drain buf.data t.1.m_send_cursor).1, loop_asserts buf.size c = true) ∧
     (send_thread_drain buf.data t.1.m_send_cursor).1.Pairwise (fun a b => a.i < b.i) ∧
     (send_thread_drain buf.data t.1.m_send_cursor).2 = t.1.m_send_cursor) := by
  refine ⟨?_, ?_, ?_⟩
  · intro m ptr v hv
    rw [copy_iov_len]
    omega
  · intro b v to_ h
    rw [append_ok_cursor listen_port b v to_ h]
    omega
  · intro t buf
    obtain ⟨i1, i2, i3, i4, i5, i6⟩ := hand_over_inv listen_port script s [] hb
      (by rw [h0]; exact Nat.zero_le _) (by rw [h0]; rfl)
    rw [List.nil_append, ← i1] at i4
    rw [← i1, ← i2] at i3
    have hle : t.2.1.length ≤ t.1.m_send_cursor := by
      have := framed_le _ _ _ _ i4
      simp only [t]
      omega
    obtain ⟨r1, r2, r3, r4, r5⟩ := send_thread_loop_framed buf.data t.2.1 t.1.m_send_cursor
      t.1.m_send_cursor 0 hle i4
    refine ⟨?_, ?_, r3⟩
    · intro c hc
      have hlen : c.len ∈ t.2.1.map List.length := by
        rw [← r2]
        exact List.mem_map_of_mem _ hc
      obtain ⟨f, hf, hfl⟩ := List.mem_map.1 hlen
      have hb5 := i5 f hf
      have hb4 := (r4 c hc).2
      have hsz : t.1.m_send_cursor ≤ buf.size := i3
      simp only [loop_asserts, Bool.and_eq_true, decide_eq_true_eq]
      refine ⟨⟨by omega, by omega⟩, by omega⟩
    · exact r5.imp (fun h => by omega)

/-- Witness for `send_path_asserts`: two batches of two frames each handed to an empty
socket with 4096-byte send buffers. -/
theorem send_path_asserts_witness :
    (sample_socket 4096).m_send_cursor = 0 ∧
    (∀ bc ∈ sample_script, bc.1.m_send_cursor = 0) ∧
    (send_thread_drain
      (((hand_over 8080 (sample_socket 4096) sample_script).1.m_send_buffer
        (hand_over 8080 (sample_socket 4096) sample_script).1.m_buffer_idx).data)
      (hand_over 8080 (sample_socket 4096) sample_script).1.m_send_cursor).1.length = 4 ∧
    (∀ c ∈ (send_thread_drain
      (((hand_over 8080 (sample_socket 4096) sample_script).1.m_send_buffer
        (hand_over 8080 (sample_socket 4096) sample_script).1.m_buffer_idx).data)
      (hand_over 8080 (sample_socket 4096) sample_script).1.m_send_cursor).1,
      loop_asserts ((hand_over 8080 (sample_socket 4096) sample_script).1.m_send_buffer
        (hand_over 8080 (sample_socket 4096) sample_script).1.m_buffer_idx).size c = true) :=
  ⟨rfl, by decide, by decide,
    (send_path_asserts 8080 (sample_socket 4096) sample_script rfl (by decide)).2.2.1⟩

/-! ## C18: the range of the decoded length -/

/-- C18 (the code at the failing input): a captured frame of 28 bytes (link header, IP
header and the first four bytes of the UDP header, with the listen port as
destination) is recorded by `packet_handler` with payload length -4; a frame
with captured length 0 over memory holding such a header is recorded with payload
length -32, and the arena offset goes from 0 down to -3. -/
theorem short_frame_negative_length :
    (packet_handler 8080 1000 (sample_state 4) (sample_frame 28).h
      (sample_frame 28).bytes).1.current = 1 ∧
    ((packet_handler 8080 1000 (sample_state 4) (sample_frame 28).h
      (sample_frame 28).bytes).1.pkts 0).buflen = -4 ∧
    (packet_handler 8080 1000 (sample_state 4) (sample_frame 0).h
      (sample_frame 0).bytes).1.current = 1 ∧
    ((packet_handler 8080 1000 (sample_state 4) (sample_frame 0).h
      (sample_frame 0).bytes).1.pkts 0).buflen = -32 ∧
    (sample_state 4).buffer_offset = 0 ∧
    (packet_handler 8080 1000 (sample_state 4) (sample_frame 0).h
      (sample_frame 0).bytes).1.buffer_offset = -3 := by
  decide

/-- Beyond the failing input of C18: when the captured length covers the link, IP and UDP
headers (`caplen >= 32` for link header size 4), a frame that `packet_handler`
records has a payload length between 0 and 1500 and the arena offset does not
decrease. -/
theorem full_header_length_range (listen_port receive_buffer_size : Int) (st : receive_state)
    (h : pcap_pkthdr) (bytes : Int → Byte) (hl : st.link_header_size = 4)
    (hlo : 32 ≤ h.caplen) (hhi : h.caplen < 2147483648)
    (hrec : (packet_handler listen_port receive_buffer_size st h bytes).1.current ≠ st.current) :
    0 ≤ ((packet_handler listen_port receive_buffer_size st h bytes).1.pkts st.current).buflen ∧
    ((packet_handler listen_port receive_buffer_size st h bytes).1.pkts st.current).buflen
      ≤ 1500 ∧
    st.buffer_offset ≤
      (packet_handler listen_port receive_buffer_size st h bytes).1.buffer_offset := by
  rcases packet_handler_cases listen_port receive_buffer_size st h bytes with hc | ⟨_, h2, hc⟩
  · rw [hc] at hrec
    exact absurd rfl hrec
  · have hlen : to_int32 ((h.caplen : Int) - 28 - st.link_header_size) =
        (h.caplen : Int) - 32 := by
      rw [hl, to_int32_small] <;> omega
    rw [hlen] at hc h2
    rw [hc]
    simp only [if_true]
    refine ⟨by omega, h2, ?_⟩
    have hdiv : ((h.caplen : Int) - 32 + 7).tdiv 8 = ((h.caplen : Int) - 32 + 7) / 8 :=
      Int.tdiv_eq_ediv (by omega) (by omega)
    rw [hdiv]
    omega

/-- Witness for `full_header_length_range`: the sample frame with a 12-byte payload. -/
theorem full_header_length_range_witness :
    (sample_state 4).link_header_size = 4 ∧
    (packet_handler 8080 1000 (sample_state 4) (sample_frame 44).h
      (sample_frame 44).bytes).1.current ≠ (sample_state 4).current ∧
    0 ≤ ((packet_handler 8080 1000 (sample_state 4) (sample_frame 44).h
      (sample_frame 44).bytes).1.pkts (sample_state 4).current).buflen :=
  ⟨rfl, by decide,
    (full_header_length_range 8080 1000 (sample_state 4) (sample_frame 44).h
      (sample_frame 44).bytes rfl (by decide) (by decide) (by decide)).1⟩

end Utrack
